import Mathlib

/-!
# AlfaDAO news server (`server.js`): a shallow embedding

The relay keeps one upstream connection to the Tree of Alpha feed, turns every
inbound payload into a news item (`transformNewsToFormat`) and pushes it to all
connected clients (`broadcastToClients`).

Modelling conventions.

* A JavaScript string is the list of its UTF-16 code units (`JSString`).
* A value produced by `JSON.parse` is a `JSVal`; a number is carried as its
  canonical decimal rendering (`Number::toString`), which is all the program
  ever observes of it (truthiness and string conversion).
* A call that may throw returns `Except JSError _`.
* What the runtime supplies (the Unicode case table, the clock, the random
  token, `JSON.stringify`) is a parameter.
-/

namespace AlfaNews

/-! ## Strings and values -/

/-- A JavaScript string, as its sequence of UTF-16 code units. -/
abbrev JSString := List Nat

/-- Code units of a string literal of the source (all of them are ASCII). -/
def js (s : String) : JSString := s.toList.map Char.toNat

/-- The exceptions the modelled code can raise. -/
inductive JSError where
  | typeError
  | syntaxError
  | sendError
  deriving DecidableEq, Repr

/-- A value as `JSON.parse` builds it, plus `undefined` (the result of reading
an absent property). A number is carried as its decimal rendering; `0` and `-0`
both render as `0`. An object is the list of its own properties. -/
inductive JSVal where
  | undefined
  | null
  | bool (b : Bool)
  | num (rendering : JSString)
  | str (s : JSString)
  | arr (xs : List JSVal)
  | obj (props : List (JSString × JSVal))

/-- An object: its own properties, the binding that a read finds coming first. -/
abbrev JSObject := List (JSString × JSVal)

/-- Property read `o.k` on an object built by `JSON.parse`: the own property, or
`undefined` (none of the keys the program reads exists on `Object.prototype`). -/
def getProp : JSObject → JSString → JSVal
  | [], _ => .undefined
  | (k', v) :: rest, k => if k' = k then v else getProp rest k

/-- Whether an object has an own property `k`. -/
def hasProp : JSObject → JSString → Bool
  | [], _ => false
  | (k', _) :: rest, k => if k' = k then true else hasProp rest k

/-- JavaScript truthiness (`ToBoolean`). -/
def truthy : JSVal → Bool
  | .undefined => false
  | .null => false
  | .bool b => b
  | .num r => !(r == js "0" || r == js "NaN")
  | .str s => !s.isEmpty
  | .arr _ => true
  | .obj _ => true

/-- The operator `a || b`. -/
def jsOr (a b : JSVal) : JSVal := if truthy a then a else b

/-- Whether a value is `undefined` or `null`. -/
def isNullish : JSVal → Bool
  | .undefined => true
  | .null => true
  | _ => false

mutual
/-- String conversion `ToString(v)`, as performed by a template literal. An
object with an own `toString` property (never callable in parsed JSON) has no
primitive value, and the conversion throws a `TypeError`. -/
def toStr : JSVal → Except JSError JSString
  | .undefined => .ok (js "undefined")
  | .null => .ok (js "null")
  | .bool b => .ok (if b then js "true" else js "false")
  | .num r => .ok r
  | .str s => .ok s
  | .arr xs => joinElems xs
  | .obj ps => if hasProp ps (js "toString") then .error .typeError else .ok (js "[object Object]")
/-- The body of `Array.prototype.join` with the separator `,`: `null` and
`undefined` elements render as the empty string. -/
def joinElems : List JSVal → Except JSError JSString
  | [] => .ok []
  | x :: xs =>
    match (if isNullish x then .ok [] else toStr x) with
    | .error e => .error e
    | .ok a =>
      if xs.isEmpty then .ok a
      else
        match joinElems xs with
        | .error e => .error e
        | .ok b => .ok (a ++ js "," ++ b)
end

/-! ## The runtime -/

/-- What the JavaScript runtime supplies during one turn of the event loop. -/
structure Host where
  /-- Unicode lower-casing of a non-ASCII code unit, given the code units before
  and after it (the mapping is context dependent for final sigma and for
  surrogate pairs). -/
  uni : JSString → Nat → JSString → JSString
  /-- The value of `Date.now()`. -/
  dateNow : Int
  /-- The value of `new Date().toISOString()`. -/
  isoNow : JSString
  /-- The value of `Math.random().toString(36).substring(7)`. -/
  randomToken : JSString
  /-- The time value of the `new Date()` of the upstream `message` handler. -/
  messageTime : Int

/-- Lower-casing of one ASCII code unit. -/
def asciiLower (c : Nat) : Nat := if 65 ≤ c ∧ c ≤ 90 then c + 32 else c

/-- Worker of `toLowerCase`: `before` holds the code units already passed. -/
def toLowerCaseFrom (uni : JSString → Nat → JSString → JSString) : JSString → JSString → JSString
  | _, [] => []
  | before, c :: rest =>
    (if c < 128 then [asciiLower c] else uni before c rest)
      ++ toLowerCaseFrom uni (before ++ [c]) rest

/-- `String.prototype.toLowerCase`. -/
def toLowerCase (uni : JSString → Nat → JSString → JSString) (s : JSString) : JSString :=
  toLowerCaseFrom uni [] s

/-- `s.startsWith(p)`. -/
def startsWith : JSString → JSString → Bool
  | _, [] => true
  | [], _ :: _ => false
  | c :: s, d :: p => c == d && startsWith s p

/-- `s.includes(sub)`. -/
def includes : JSString → JSString → Bool
  | [], sub => sub.isEmpty
  | c :: s, sub => startsWith (c :: s) sub || includes s sub

/-! ## The two regular expressions -/

/-- The class `[a-fA-F0-9]`. -/
def isHexDigit (c : Nat) : Bool :=
  (97 ≤ c && c ≤ 102) || (65 ≤ c && c ≤ 70) || (48 ≤ c && c ≤ 57)

/-- One attempt of `/0x[a-fA-F0-9]{40}/` at the head of `s`: the matched text. -/
def matchContractAt (s : JSString) : Option JSString :=
  match s with
  | 48 :: 120 :: rest =>
    if (rest.take 40).length = 40 ∧ (rest.take 40).all isHexDigit = true
    then some (48 :: 120 :: rest.take 40) else none
  | _ => none

/-- The global scan of `fullText.match(contractRegex)`: `skip` is the number of
code units of the last match that the cursor still has to step over (the scan
resumes at the end of a match). -/
def scanContracts : Nat → JSString → List JSString
  | _, [] => []
  | skip + 1, _ :: rest => scanContracts skip rest
  | 0, c :: rest =>
    match matchContractAt (c :: rest) with
    | some m => m :: scanContracts 41 rest
    | none => scanContracts 0 rest

/-- The class `[A-Z]`. -/
def isUpperAZ (c : Nat) : Bool := 65 ≤ c && c ≤ 90

/-- A word character of a regular expression without the `u` and `i` flags:
`[A-Za-z0-9_]`. -/
def isWordChar (c : Nat) : Bool :=
  (97 ≤ c && c ≤ 122) || (65 ≤ c && c ≤ 90) || (48 ≤ c && c ≤ 57) || c == 95

/-- Whether the position (start or end of input when `none`) holds a word character. -/
def isWordAt : Option Nat → Bool
  | none => false
  | some c => isWordChar c

/-- The assertion `\b` between the code units `prev` and `next`. -/
def wordBoundary (prev next : Option Nat) : Bool := isWordAt prev != isWordAt next

/-- Backtracking of `[A-Z]{2,10}` followed by `\b`: try `k` letters, then
`k - 1`, down to the minimum of two; `rest` is the text after the dollar sign. -/
def backtrackToken (rest : JSString) : Nat → Option JSString
  | 0 => none
  | k + 1 =>
    if k + 1 < 2 then none
    else if wordBoundary rest[k]? rest[k + 1]? then some (rest.take (k + 1))
    else backtrackToken rest k

/-- One attempt of `/\$([A-Z]{2,10})\b/` at the head of `s`: the captured group.
The quantifier is greedy: it first takes the longest run of at most ten letters. -/
def matchTokenAt (s : JSString) : Option JSString :=
  match s with
  | 36 :: rest => backtrackToken rest ((rest.takeWhile isUpperAZ).take 10).length
  | _ => none

/-- The global scan of `fullText.matchAll(tokenRegex)` followed by
`map(match => match[1])`; `skip` as in `scanContracts`. -/
def scanTokens : Nat → JSString → List JSString
  | _, [] => []
  | skip + 1, _ :: rest => scanTokens skip rest
  | 0, c :: rest =>
    match matchTokenAt (c :: rest) with
    | some m => m :: scanTokens m.length rest
    | none => scanTokens 0 rest

/-- Insertion of one value into a `Set` (insertion order, no second copy). -/
def setAdd (acc : List JSString) (x : JSString) : List JSString :=
  if x ∈ acc then acc else acc ++ [x]

/-- The expression `[...new Set(xs)]`. -/
def setFromArray (xs : List JSString) : List JSString := xs.foldl setAdd []

/-! ## `transformNewsToFormat` -/

/-- The object `transformNewsToFormat` returns. -/
structure NewsItem where
  id : JSVal
  source : JSVal
  title : JSVal
  body : JSVal
  url : JSVal
  timestamp : JSVal
  category : JSString
  contracts : List JSString
  tokens : List JSString

/-- The value `message.text || message.title || ''`. -/
def fullTextOf (message : JSObject) : JSVal :=
  jsOr (jsOr (getProp message (js "text")) (getProp message (js "title"))) (.str [])

/-- The method call `v.toLowerCase()`: a `TypeError` unless `v` is a string. -/
def callToLowerCase (h : Host) : JSVal → Except JSError JSString
  | .str s => .ok (toLowerCase h.uni s)
  | _ => .error .typeError

/-- The keyword cascade of lines 115-124 on the lower-cased text. -/
def categorize (text : JSString) : JSString :=
  if includes text (js "launch") || includes text (js "launching") then js "launch"
  else if includes text (js "airdrop") then js "airdrop"
  else if includes text (js "listing") || includes text (js "listed on") then js "listing"
  else if includes text (js "hack") || includes text (js "exploit")
      || includes text (js "vulnerability") || includes text (js "alert") then js "security"
  else js "general"

/-- The method call `v.match(contractRegex) || []`. -/
def callMatchContracts : JSVal → Except JSError (List JSString)
  | .str s => .ok (scanContracts 0 s)
  | _ => .error .typeError

/-- The method call `[...v.matchAll(tokenRegex)].map(match => match[1])`. -/
def callMatchTokens : JSVal → Except JSError (List JSString)
  | .str s => .ok (scanTokens 0 s)
  | _ => .error .typeError

/-- The expression `message.title || (message.user ? '@' + message.user : null)`
(the source writes the concatenation as a template literal). -/
def titleOf (message : JSObject) : Except JSError JSVal :=
  if truthy (getProp message (js "title")) then .ok (getProp message (js "title"))
  else if truthy (getProp message (js "user")) then
    match toStr (getProp message (js "user")) with
    | .error e => .error e
    | .ok u => .ok (.str (js "@" ++ u))
  else .ok .null

/-- The generated identifier: `news-`, the clock in milliseconds, `-`, the random token. -/
def generatedId (h : Host) : JSString :=
  js "news-" ++ js (toString h.dateNow) ++ js "-" ++ h.randomToken

/-- Lines 111 and 115-124: the value of the local variable `category`. -/
def categoryOf (h : Host) (message : JSObject) : Except JSError JSString :=
  match callToLowerCase h (fullTextOf message) with
  | .error e => .error e
  | .ok text => .ok (categorize text)

/-- The function `transformNewsToFormat(message)`: the category, the matches of
the two regular expressions, then the object literal, whose `title` is the only
property that can throw. -/
def transformNewsToFormat (h : Host) (message : JSObject) : Except JSError NewsItem :=
  match categoryOf h message with
  | .error e => .error e
  | .ok category =>
    match callMatchContracts (fullTextOf message) with
    | .error e => .error e
    | .ok contracts =>
      match callMatchTokens (fullTextOf message) with
      | .error e => .error e
      | .ok tokens =>
        match titleOf message with
        | .error e => .error e
        | .ok title =>
          .ok {
            id := jsOr (jsOr (getProp message (js "id")) (getProp message (js "tweetId")))
                    (.str (generatedId h))
            source := jsOr (getProp message (js "source")) (.str (js "tree_of_alpha"))
            title := title
            body := jsOr (jsOr (getProp message (js "text")) (getProp message (js "body")))
                    (.str [])
            url := jsOr (jsOr (getProp message (js "url")) (getProp message (js "link"))) .null
            timestamp := jsOr (jsOr (getProp message (js "timestamp"))
                    (getProp message (js "createdAt"))) (.str h.isoNow)
            category := category
            contracts := setFromArray contracts
            tokens := setFromArray tokens }

/-! ## The server state, `broadcastToClients` and the upstream handlers -/

/-- A downstream socket of `wss.clients`. -/
structure Client where
  /-- Identity of the socket object. -/
  id : Nat
  /-- The `readyState`: 0 CONNECTING, 1 OPEN, 2 CLOSING, 3 CLOSED. -/
  readyState : Nat
  /-- Whether a call of `send` on this socket throws. -/
  sendThrows : Bool
  deriving DecidableEq, Repr

/-- The module-level state of `server.js` together with the history of its
observable actions. -/
structure Server where
  /-- The `readyState` of the socket held in `toaConnection`; `none` is `null`. -/
  toaConnection : Option Nat
  messageCount : Nat
  /-- The time stored in `lastMessageTime`; `none` is `null`. -/
  lastMessageTime : Option Int
  /-- The set `wss.clients`, in iteration order. -/
  clients : List Client
  /-- Timers set by `setTimeout(connectToTreeOfAlpha, 5000)` that have not fired. -/
  pendingReconnects : Nat
  /-- Number of invocations of `connectToTreeOfAlpha` so far. -/
  connectCalls : Nat
  /-- Whether a shutdown signal handler has run. -/
  stopped : Bool
  /-- Whether `process.exit(0)` has run. -/
  exited : Bool
  /-- Items handed to `broadcastToClients`, oldest first. -/
  broadcasts : List NewsItem
  /-- Calls of `client.send`: socket and payload, oldest first. -/
  sendAttempts : List (Nat × JSString)
  /-- Calls of `client.send` that returned normally. -/
  delivered : List (Nat × JSString)
  /-- Number of executions of a `catch` block. -/
  errorsLogged : Nat

/-- The state when the module has been loaded. -/
def initialServer (clients : List Client) : Server :=
  { toaConnection := none, messageCount := 0, lastMessageTime := none, clients := clients,
    pendingReconnects := 0, connectCalls := 0, stopped := false, exited := false,
    broadcasts := [], sendAttempts := [], delivered := [], errorsLogged := 0 }

/-- The call `client.send(message)`: the state after it and the exception thrown, if any. -/
def clientSend (client : Client) (message : JSString) (s : Server) : Server × Option JSError :=
  let s1 := { s with sendAttempts := s.sendAttempts ++ [(client.id, message)] }
  if client.sendThrows then (s1, some .sendError)
  else ({ s1 with delivered := s1.delivered ++ [(client.id, message)] }, none)

/-- The callback of `wss.clients.forEach` in `broadcastToClients`; an exception
that escapes one call ends the iteration. -/
def broadcastStep (message : JSString) (acc : Server × Option JSError) (client : Client) :
    Server × Option JSError :=
  match acc.2 with
  | some e => (acc.1, some e)
  | none =>
    if client.readyState = 1 then
      match clientSend client message acc.1 with
      | (s1, some _) => ({ s1 with errorsLogged := s1.errorsLogged + 1 }, none)
      | (s1, none) => (s1, none)
    else (acc.1, none)

/-- The function `broadcastToClients(newsItem)`. -/
def broadcastToClients (stringify : NewsItem → JSString) (newsItem : NewsItem) (s : Server) :
    Server × Option JSError :=
  let message := stringify newsItem
  s.clients.foldl (broadcastStep message)
    ({ s with broadcasts := s.broadcasts ++ [newsItem] }, none)

/-- The comparison `v === 'news'`. -/
def isNews : JSVal → Bool
  | .str s => s == js "news"
  | _ => false

/-- The method call `v.substring(0, 60)`: a `TypeError` unless `v` is a string. -/
def callSubstring : JSVal → Except JSError JSString
  | .str s => .ok (s.take 60)
  | _ => .error .typeError

/-- The `try` block of the upstream `message` handler, after `JSON.parse` has
returned `message`. -/
def onMessageBody (h : Host) (stringify : NewsItem → JSString) (message : JSVal) (s : Server) :
    Server × Option JSError :=
  match message with
  | .undefined => (s, some .typeError)
  | .null => (s, some .typeError)
  | .obj ps =>
    if isNews (getProp ps (js "type")) || truthy (getProp ps (js "text")) then
      let s1 := { s with messageCount := s.messageCount + 1, lastMessageTime := some h.messageTime }
      match transformNewsToFormat h ps with
      | .error e => (s1, some e)
      | .ok newsItem =>
        match broadcastToClients stringify newsItem s1 with
        | (s2, some e) => (s2, some e)
        | (s2, none) =>
          match callSubstring (fullTextOf ps) with
          | .error e => (s2, some e)
          | .ok _ => (s2, none)
    else (s, none)
  | _ => (s, none)

/-- The upstream `message` handler; `parsed` is the outcome of
`JSON.parse(data.toString())`. The `catch` block logs and swallows the exception. -/
def onMessage (h : Host) (stringify : NewsItem → JSString) (parsed : Except JSError JSVal)
    (s : Server) : Server × Option JSError :=
  match (match parsed with
         | .error e => (s, some e)
         | .ok message => onMessageBody h stringify message s : Server × Option JSError) with
  | (s1, some _) => ({ s1 with errorsLogged := s1.errorsLogged + 1 }, none)
  | (s1, none) => (s1, none)

/-- The function `connectToTreeOfAlpha()`; `ctorThrows` tells whether
`new WebSocket(...)` throws. -/
def connectToTreeOfAlpha (ctorThrows : Bool) (s : Server) : Server :=
  let s1 := { s with connectCalls := s.connectCalls + 1 }
  if s1.toaConnection = some 1 then s1
  else if ctorThrows then
    { s1 with errorsLogged := s1.errorsLogged + 1, pendingReconnects := s1.pendingReconnects + 1 }
  else { s1 with toaConnection := some 0 }

/-- The upstream `close` handler: `setTimeout(connectToTreeOfAlpha, 5000)`. -/
def onUpstreamClose (s : Server) : Server :=
  { s with pendingReconnects := s.pendingReconnects + 1 }

/-- The `SIGTERM` and `SIGINT` handlers, up to the registration of the
callbacks: `toaConnection?.close()` starts the closing handshake of a socket
that is not closed yet; the servers are asked to close. -/
def onShutdownSignal (s : Server) : Server :=
  { s with
    stopped := true
    toaConnection :=
      match s.toaConnection with
      | none => none
      | some 3 => some 3
      | some _ => some 2 }

/-- What the event loop can deliver. -/
inductive Event where
  /-- The `listen` callback: the first call of `connectToTreeOfAlpha`. -/
  | start (ctorThrows : Bool)
  /-- The upstream socket opens. -/
  | upstreamOpen
  /-- An upstream frame arrives. -/
  | upstreamMessage (h : Host) (parsed : Except JSError JSVal)
  /-- The upstream socket reports an error (logged only). -/
  | upstreamError
  /-- The upstream socket emits `close`. -/
  | upstreamClose
  /-- A pending reconnect timer elapses. -/
  | timerFires (ctorThrows : Bool)
  /-- `SIGTERM` or `SIGINT` is received. -/
  | shutdownSignal
  /-- Both servers have closed: the innermost callback runs `process.exit(0)`. -/
  | serversClosed

/-- One turn of the event loop. An event that cannot occur in the state (no
socket to open or close, no timer pending, process gone) changes nothing. The
`message` handler has no `readyState` guard: a frame is handled whatever the
state of the socket that delivers it, also while it is closing. -/
def step (stringify : NewsItem → JSString) (s : Server) : Event → Server
  | .start ctorThrows => if s.exited then s else connectToTreeOfAlpha ctorThrows s
  | .upstreamOpen =>
    if s.exited then s
    else if s.toaConnection = some 0 then { s with toaConnection := some 1 } else s
  | .upstreamMessage h parsed =>
    if s.exited then s
    else
      match s.toaConnection with
      | none => s
      | some _ => (onMessage h stringify parsed s).1
  | .upstreamError => s
  | .upstreamClose =>
    if s.exited then s
    else
      match s.toaConnection with
      | none => s
      | some 3 => s
      | some _ => onUpstreamClose { s with toaConnection := some 3 }
  | .timerFires ctorThrows =>
    if s.exited then s
    else if s.pendingReconnects = 0 then s
    else connectToTreeOfAlpha ctorThrows { s with pendingReconnects := s.pendingReconnects - 1 }
  | .shutdownSignal => if s.exited then s else onShutdownSignal s
  | .serversClosed => if s.exited then s else if s.stopped then { s with exited := true } else s

/-- The state after a sequence of events. -/
def run (stringify : NewsItem → JSString) (s : Server) (events : List Event) : Server :=
  events.foldl (step stringify) s

/-- Whether an event invokes `connectToTreeOfAlpha`. -/
def Event.isConnect : Event → Bool
  | .start _ => true
  | .timerFires _ => true
  | _ => false

/-! ## Vocabulary of the statements -/

/-- A runtime at a fixed instant whose case table leaves every non-ASCII code
unit as it is. -/
def plainHost : Host :=
  { uni := fun _ c _ => [c], dateNow := 1700000000000,
    isoNow := js "2023-11-14T22:13:20.000Z", randomToken := js "k3j2x",
    messageTime := 1699999999998 }

/-- The `user` field is falsy, or its string conversion does not throw. -/
def UserConverts (message : JSObject) : Prop :=
  truthy (getProp message (js "user")) = true →
    ∃ u, toStr (getProp message (js "user")) = .ok u

/-- The title expression of the returned object can be evaluated: `title` is
truthy (then `user` is not consulted), or `user` converts. -/
def TitleBuilds (message : JSObject) : Prop :=
  truthy (getProp message (js "title")) = true ∨ UserConverts message

/-- The category the priority list assigns to a lower-cased text: the first
keyword group that occurs in it decides. -/
def specCategory (low : JSString) : JSString :=
  if js "launch" <:+: low then js "launch"
  else if js "airdrop" <:+: low then js "airdrop"
  else if js "listing" <:+: low ∨ js "listed on" <:+: low then js "listing"
  else if js "hack" <:+: low ∨ js "exploit" <:+: low ∨ js "vulnerability" <:+: low
      ∨ js "alert" <:+: low then js "security"
  else js "general"

/-- The keys a minimal message lacks. -/
def optionalKeys : List JSString :=
  [js "text", js "title", js "id", js "tweetId", js "source", js "user", js "body",
   js "url", js "link", js "timestamp", js "createdAt"]

/-- A message with a keyword in `text` and a `user` object that has an own
`toString` property. -/
def launchWithOddUser : JSObject :=
  [(js "text", .str (js "launch")), (js "user", .obj [(js "toString", .num (js "1"))])]

/-- The text of the end-to-end example; its address has 39 hexadecimal digits. -/
def exampleText : JSString :=
  js "Exchange X lists $FOO, contract 0xABCDEF0123456789ABCDEF0123456789ABCDEF0"

/-- The message of the end-to-end example. -/
def exampleMessage : JSObject :=
  [(js "type", .str (js "news")), (js "text", .str exampleText)]

/-- The shape of a contract address: `0x` followed by 40 hexadecimal digits. -/
def IsContract (a : JSString) : Prop :=
  ∃ hex, a = js "0x" ++ hex ∧ hex.length = 40 ∧ ∀ c ∈ hex, isHexDigit c = true

/-- The substring of `t` that starts at position `p` is the contract address `a`. -/
def ContractAt (t : JSString) (p : Nat) (a : JSString) : Prop :=
  IsContract a ∧ ∃ pre post, t = pre ++ a ++ post ∧ pre.length = p

/-- The shape of a ticker symbol: 2 to 10 uppercase ASCII letters. -/
def IsTicker (sym : JSString) : Prop :=
  2 ≤ sym.length ∧ sym.length ≤ 10 ∧ ∀ c ∈ sym, isUpperAZ c = true

/-- At position `p` of `t` stands a dollar sign, immediately followed by the
symbol `sym`, and what follows `sym` is the end of the text or a code unit that
is not an ASCII letter, digit or underscore. -/
def TickerAt (t : JSString) (p : Nat) (sym : JSString) : Prop :=
  IsTicker sym ∧ ∃ pre post, t = pre ++ 36 :: sym ++ post ∧ pre.length = p
    ∧ ∀ c, post.head? = some c → isWordChar c = false

/-- The address `0x` followed by forty times the digit `d`. -/
def repeatedAddress (d : Nat) : JSString := js "0x" ++ List.replicate 40 d

/-- Two contract-shaped substrings that share one code unit: the last `0` of the
first address is the `0` of the `0x` of the second. -/
def overlappingText : JSString := repeatedAddress 48 ++ js "x" ++ List.replicate 40 49

/-- A message whose `text` is `overlappingText`. -/
def overlappingMessage : JSObject := [(js "text", .str overlappingText)]

/-- A message that carries an address in `body` only. -/
def bodyOnlyMessage : JSObject := [(js "body", .str (repeatedAddress 48))]

/-- The text of the ticker example. -/
def tickerText : JSString := js "Buy $BTC and $eth now"

/-- Whether the handler counts a payload: it parsed to an object whose `type`
is `news` or whose `text` is truthy. -/
def isCounted : Except JSError JSVal → Bool
  | .ok (.obj ps) => isNews (getProp ps (js "type")) || truthy (getProp ps (js "text"))
  | _ => false

/-- Whether a payload is counted and `transformNewsToFormat` returns an item for it. -/
def isRelayed (h : Host) (parsed : Except JSError JSVal) : Bool :=
  isCounted parsed &&
    (match parsed with
     | .ok (.obj ps) => (transformNewsToFormat h ps).toBool
     | _ => false)

/-- The state after a sequence of upstream frames, each with the runtime of its turn. -/
def relay (stringify : NewsItem → JSString) (s : Server)
    (frames : List (Host × Except JSError JSVal)) : Server :=
  frames.foldl (fun acc f => (onMessage f.1 stringify f.2 acc).1) s

/-- The signal arrives while the upstream socket is open; the socket then
closes and five seconds later the timer of its `close` handler elapses. -/
def signalWhileOpen : List Event :=
  [.start false, .upstreamOpen, .shutdownSignal, .upstreamClose, .timerFires false]

/-- The upstream socket closes, the signal arrives within the five seconds of
the reconnect delay, then the timer elapses. -/
def signalWhileWaiting : List Event :=
  [.start false, .upstreamOpen, .upstreamClose, .shutdownSignal, .timerFires false]

/-- Four sockets: open, open with a throwing `send`, closed, open. -/
def sampleClients : List Client :=
  [⟨1, 1, false⟩, ⟨2, 1, true⟩, ⟨3, 3, false⟩, ⟨4, 1, false⟩]

/-- The welcome item of the connection handler, with an empty timestamp. -/
def sampleItem : NewsItem :=
  { id := .str (js "welcome"), source := .str (js "system"), title := .str (js "Connected"),
    body := .str [], url := .null, timestamp := .str [], category := js "general",
    contracts := [], tokens := [] }

/-- A message whose `text` is the number 5. -/
def numericTextMessage : JSObject := [(js "type", .str (js "news")), (js "text", .num (js "5"))]

/-! ## Strings -/

theorem startsWith_iff (s p : JSString) : startsWith s p = true ↔ p <+: s := by
  induction s generalizing p with
  | nil =>
    cases p with
    | nil => simp [startsWith]
    | cons d p => simp [startsWith]
  | cons c s ih =>
    cases p with
    | nil => simp [startsWith]
    | cons d p =>
      simp only [startsWith, Bool.and_eq_true, beq_iff_eq, ih, List.cons_prefix_cons]
      constructor
      · rintro ⟨h1, h2⟩; exact ⟨h1.symm, h2⟩
      · rintro ⟨h1, h2⟩; exact ⟨h1.symm, h2⟩

theorem includes_iff (s sub : JSString) : includes s sub = true ↔ sub <:+: s := by
  induction s with
  | nil => cases sub <;> simp [includes]
  | cons c s ih =>
    rw [includes, Bool.or_eq_true, ih, startsWith_iff, List.infix_cons_iff]

theorem toLowerCaseFrom_append_ascii (uni : JSString → Nat → JSString → JSString)
    (w : JSString) (hw : ∀ c ∈ w, c < 128) (before post : JSString) :
    toLowerCaseFrom uni before (w ++ post)
      = w.map asciiLower ++ toLowerCaseFrom uni (before ++ w) post := by
  induction w generalizing before with
  | nil => simp
  | cons c w ih =>
    have hc : c < 128 := hw c (List.mem_cons_self _ _)
    have hw2 : ∀ d ∈ w, d < 128 := fun d hd => hw d (List.mem_cons_of_mem _ hd)
    simp [toLowerCaseFrom, hc, ih hw2]

theorem toLowerCaseFrom_append (uni : JSString → Nat → JSString → JSString)
    (pre post before : JSString) :
    ∃ x, toLowerCaseFrom uni before (pre ++ post)
      = x ++ toLowerCaseFrom uni (before ++ pre) post := by
  induction pre generalizing before with
  | nil => exact ⟨[], by simp⟩
  | cons c pre ih =>
    obtain ⟨x, hx⟩ := ih (before ++ [c])
    refine ⟨(if c < 128 then [asciiLower c] else uni before c (pre ++ post)) ++ x, ?_⟩
    simp [toLowerCaseFrom, hx]

theorem toLowerCase_ascii_infix (uni : JSString → Nat → JSString → JSString)
    (s w : JSString) (hw : ∀ c ∈ w, c < 128) (hin : w <:+: s) :
    w.map asciiLower <:+: toLowerCase uni s := by
  obtain ⟨pre, post, rfl⟩ := hin
  obtain ⟨x, hx⟩ := toLowerCaseFrom_append uni pre (w ++ post) []
  refine ⟨x, toLowerCaseFrom uni ([] ++ pre ++ w) post, ?_⟩
  unfold toLowerCase
  rw [List.append_assoc pre w post, hx, toLowerCaseFrom_append_ascii uni w hw]
  simp


/-! ## Values -/

theorem getProp_of_absent (o : JSObject) (k : JSString) (h : hasProp o k = false) :
    getProp o k = .undefined := by
  induction o with
  | nil => rfl
  | cons p o ih =>
    obtain ⟨k', v⟩ := p
    by_cases hk : k' = k
    · simp [hasProp, hk] at h
    · simp only [hasProp, hk, if_false] at h
      simp [getProp, hk, ih h]

theorem titleOf_ok (message : JSObject) (hb : TitleBuilds message) :
    ∃ t, titleOf message = .ok t := by
  unfold titleOf
  by_cases ht : truthy (getProp message (js "title")) = true
  · exact ⟨getProp message (js "title"), by simp [ht]⟩
  · by_cases hu : truthy (getProp message (js "user")) = true
    · have hc : UserConverts message := by
        rcases hb with hb | hb
        · exact absurd hb ht
        · exact hb
      obtain ⟨u, hu2⟩ := hc hu
      exact ⟨.str (js "@" ++ u), by simp [ht, hu, hu2]⟩
    · exact ⟨.null, by simp [ht, hu]⟩

mutual
theorem toStr_error : ∀ (v : JSVal) (e : JSError), toStr v = .error e → e = .typeError
  | .undefined, e, h => by simp [toStr] at h
  | .null, e, h => by simp [toStr] at h
  | .bool b, e, h => by simp [toStr] at h
  | .num r, e, h => by simp [toStr] at h
  | .str s, e, h => by simp [toStr] at h
  | .arr xs, e, h => joinElems_error xs e (by simpa [toStr] using h)
  | .obj ps, e, h => by
    simp only [toStr] at h
    split at h
    · injection h with h; exact h.symm
    · simp at h
termination_by v => sizeOf v
theorem joinElems_error : ∀ (xs : List JSVal) (e : JSError), joinElems xs = .error e → e = .typeError
  | [], e, h => by simp [joinElems] at h
  | x :: xs, e, h => by
    have hx := toStr_error x
    have hxs := joinElems_error xs
    rw [joinElems] at h
    split at h
    · next e1 heq =>
      injection h with h
      subst h
      split at heq
      · simp at heq
      · exact hx _ heq
    · next a heq =>
      split at h
      · simp at h
      · split at h
        · next e2 heq2 =>
          injection h with h
          subst h
          exact hxs _ heq2
        · simp at h
termination_by xs => sizeOf xs
end

theorem titleOf_error (message : JSObject) (hb : ¬ TitleBuilds message) :
    titleOf message = .error .typeError := by
  unfold titleOf
  have ht : ¬ truthy (getProp message (js "title")) = true := fun h => hb (Or.inl h)
  have hu : truthy (getProp message (js "user")) = true := by
    by_contra hu
    exact hb (Or.inr (fun h => absurd h hu))
  have hno : ∀ u, toStr (getProp message (js "user")) ≠ .ok u := by
    intro u hu2
    exact hb (Or.inr (fun _ => ⟨u, hu2⟩))
  simp only [ht, hu, if_true, if_false]
  cases hts : toStr (getProp message (js "user")) with
  | ok u => exact absurd hts (hno u)
  | error e => rw [toStr_error _ e hts]; simp

/-! ## `transformNewsToFormat`: its result -/

/-- The object literal of lines 135-145, for a full text `s` and a title `t`. -/
theorem transform_ok (h : Host) (message : JSObject) (s : JSString) (t : JSVal)
    (hft : fullTextOf message = .str s) (ht : titleOf message = .ok t) :
    transformNewsToFormat h message = .ok
      { id := jsOr (jsOr (getProp message (js "id")) (getProp message (js "tweetId")))
              (.str (generatedId h))
        source := jsOr (getProp message (js "source")) (.str (js "tree_of_alpha"))
        title := t
        body := jsOr (jsOr (getProp message (js "text")) (getProp message (js "body"))) (.str [])
        url := jsOr (jsOr (getProp message (js "url")) (getProp message (js "link"))) .null
        timestamp := jsOr (jsOr (getProp message (js "timestamp"))
              (getProp message (js "createdAt"))) (.str h.isoNow)
        category := categorize (toLowerCase h.uni s)
        contracts := setFromArray (scanContracts 0 s)
        tokens := setFromArray (scanTokens 0 s) } := by
  simp [transformNewsToFormat, categoryOf, hft, ht, callToLowerCase, callMatchContracts,
    callMatchTokens]

/-- The fields of a returned item that are computed from the full text `s`. -/
theorem transform_fields (h : Host) (message : JSObject) (s : JSString) (item : NewsItem)
    (hft : fullTextOf message = .str s) (hitem : transformNewsToFormat h message = .ok item) :
    item.category = categorize (toLowerCase h.uni s)
      ∧ item.contracts = setFromArray (scanContracts 0 s)
      ∧ item.tokens = setFromArray (scanTokens 0 s)
      ∧ item.body
          = jsOr (jsOr (getProp message (js "text")) (getProp message (js "body"))) (.str []) := by
  cases ht : titleOf message with
  | error e =>
    simp [transformNewsToFormat, categoryOf, hft, ht, callToLowerCase, callMatchContracts,
      callMatchTokens] at hitem
  | ok t =>
    rw [transform_ok h message s t hft ht] at hitem
    injection hitem with hitem
    subst hitem
    exact ⟨rfl, rfl, rfl, rfl⟩

theorem fullTextOf_text (message : JSObject) (s : JSString) (hs : s ≠ [])
    (ht : getProp message (js "text") = .str s) : fullTextOf message = .str s := by
  cases s with
  | nil => exact absurd rfl hs
  | cons c s => simp [fullTextOf, jsOr, ht, truthy]

theorem fullTextOf_title (message : JSObject) (s : JSString) (hs : s ≠ [])
    (ht : truthy (getProp message (js "text")) = false)
    (htt : getProp message (js "title") = .str s) : fullTextOf message = .str s := by
  cases s with
  | nil => exact absurd rfl hs
  | cons c s =>
    simp only [fullTextOf, jsOr, ht, htt]
    simp [truthy]

theorem launching_includes_launch (low : JSString) (h : js "launching" <:+: low) :
    js "launch" <:+: low := by
  have hp : js "launch" <:+: js "launching" := ⟨[], js "ing", by decide⟩
  exact hp.trans h

theorem categorize_launch (low : JSString) (h : js "launch" <:+: low) :
    categorize low = js "launch" := by
  simp [categorize, (includes_iff low (js "launch")).2 h]

theorem ascii_of_lower_eq (w k : JSString) (hk : ∀ c ∈ k, c < 128)
    (hw : w.map asciiLower = k) : ∀ c ∈ w, c < 128 := by
  intro c hc
  have hm : asciiLower c ∈ k := by
    rw [← hw]; exact List.mem_map_of_mem _ hc
  have := hk _ hm
  unfold asciiLower at this
  split at this <;> omega


theorem categorize_eq_spec (low : JSString) : categorize low = specCategory low := by
  unfold categorize specCategory
  by_cases h1 : js "launch" <:+: low
  · simp [(includes_iff low (js "launch")).2 h1, h1]
  · have h1' : includes low (js "launch") = false := by
      rw [← Bool.not_eq_true, includes_iff]; exact h1
    have h1'' : includes low (js "launching") = false := by
      rw [← Bool.not_eq_true, includes_iff]; exact fun h => h1 (launching_includes_launch low h)
    simp only [h1', h1'', h1, Bool.or_false, Bool.false_eq_true, if_false, Bool.or_eq_true,
      includes_iff, or_assoc]

theorem toLowerCase_ascii (uni : JSString → Nat → JSString → JSString) (s : JSString)
    (hs : ∀ c ∈ s, c < 128) : toLowerCase uni s = s.map asciiLower := by
  have := toLowerCaseFrom_append_ascii uni s hs [] []
  simpa [toLowerCase, toLowerCaseFrom] using this

/-- C1: category priority. For every raw message that carries its text `s` (a
non-empty string) in exactly one of `text` / `title`, the other being absent,
lines 111-124 compute as category the one the priority list assigns to the
lower-cased text: `launch`, else `airdrop`, else `listing`, else `security`,
else `general`. Every item the function returns carries that category, and it
returns one whenever its title expression can be evaluated. Matching ignores
ASCII letter case: the lower-cased text contains the lower-cased form of every
ASCII word of the text, so a text that contains `launch` in any letter case is
categorized `launch`, also when it contains `hack`. -/
theorem category_priority (h : Host) (message : JSObject) (s : JSString) (hs : s ≠ [])
    (hcarry : (getProp message (js "text") = .str s ∧ hasProp message (js "title") = false)
            ∨ (hasProp message (js "text") = false ∧ getProp message (js "title") = .str s)) :
    categoryOf h message = .ok (specCategory (toLowerCase h.uni s))
      ∧ (∀ item, transformNewsToFormat h message = .ok item →
          item.category = specCategory (toLowerCase h.uni s))
      ∧ (TitleBuilds message → ∃ item, transformNewsToFormat h message = .ok item
          ∧ item.category = specCategory (toLowerCase h.uni s))
      ∧ (∀ w, w <:+: s → (∀ c ∈ w, c < 128) → w.map asciiLower <:+: toLowerCase h.uni s)
      ∧ (∀ w, w <:+: s → w.map asciiLower = js "launch" →
          specCategory (toLowerCase h.uni s) = js "launch")
      ∧ (∀ w v, w <:+: s → v <:+: s → w.map asciiLower = js "launch" →
          v.map asciiLower = js "hack" → specCategory (toLowerCase h.uni s) = js "launch") := by
  have hft : fullTextOf message = .str s := by
    rcases hcarry with ⟨ht, _⟩ | ⟨ht, htt⟩
    · exact fullTextOf_text message s hs ht
    · exact fullTextOf_title message s hs (by rw [getProp_of_absent _ _ ht]; rfl) htt
  have hl : ∀ w, w <:+: s → w.map asciiLower = js "launch" →
      specCategory (toLowerCase h.uni s) = js "launch" := by
    intro w hw hwl
    rw [← categorize_eq_spec]
    apply categorize_launch
    rw [← hwl]
    exact toLowerCase_ascii_infix h.uni s w (ascii_of_lower_eq w (js "launch") (by decide) hwl) hw
  refine ⟨?_, ?_, ?_, fun w hw hascii => toLowerCase_ascii_infix h.uni s w hascii hw, hl,
    fun w v hw _ hwl _ => hl w hw hwl⟩
  · simp [categoryOf, hft, callToLowerCase, categorize_eq_spec]
  · intro item hitem
    rw [(transform_fields h message s item hft hitem).1, categorize_eq_spec]
  · intro hb
    obtain ⟨t, ht⟩ := titleOf_ok message hb
    exact ⟨_, transform_ok h message s t hft ht, categorize_eq_spec _⟩

/-- C1 at a message that carries `Exploit alert: LAUNCH delayed` in `title`: the
item is returned and its category is `launch`. -/
theorem category_priority_witness :
    ∃ item, transformNewsToFormat plainHost
        [(js "title", .str (js "Exploit alert: LAUNCH delayed"))] = .ok item
      ∧ item.category = js "launch" := by
  obtain ⟨-, -, h3, -, h4, -⟩ := category_priority plainHost
    [(js "title", .str (js "Exploit alert: LAUNCH delayed"))]
    (js "Exploit alert: LAUNCH delayed") (by decide) (Or.inr ⟨rfl, rfl⟩)
  obtain ⟨item, hi, hc⟩ := h3 (Or.inl rfl)
  exact ⟨item, hi, hc.trans
    (h4 (js "LAUNCH") ⟨js "Exploit alert: ", js " delayed", by decide⟩ (by decide))⟩

/-- C2 (amended): the end-to-end example. For the raw message
`{type: "news", text: "Exchange X lists $FOO, contract 0xABCDEF...ABCDEF0"}`
the function returns, under every runtime, an item with category `general`
(the text contains `lists`, not `listing` or `listed on`), tokens `["FOO"]`,
no contract (the address has 39 hexadecimal digits) and the text as body. -/
theorem example_end_to_end (h : Host) :
    ∃ item, transformNewsToFormat h exampleMessage = .ok item
      ∧ item.category = js "general" ∧ item.tokens = [js "FOO"] ∧ item.contracts = []
      ∧ item.body = .str exampleText := by
  refine ⟨_, transform_ok h exampleMessage exampleText .null rfl rfl, ?_, ?_, ?_, rfl⟩
  · show categorize (toLowerCase h.uni exampleText) = js "general"
    rw [toLowerCase_ascii h.uni _ (by decide)]
    decide
  · show setFromArray (scanTokens 0 exampleText) = [js "FOO"]
    decide
  · show setFromArray (scanContracts 0 exampleText) = []
    decide

/-- C2, as stated, fails: the item returned for the example has neither the
category `listing` nor the 41-unit string of the example among its contracts. -/
theorem example_end_to_end_counterexample :
    ∃ item, transformNewsToFormat plainHost exampleMessage = .ok item
      ∧ item.category ≠ js "listing"
      ∧ item.contracts ≠ [js "0xABCDEF0123456789ABCDEF0123456789ABCDEF0"] := by
  refine ⟨_, transform_ok plainHost exampleMessage exampleText .null rfl rfl, ?_, ?_⟩
  · show categorize (toLowerCase plainHost.uni exampleText) ≠ js "listing"
    decide
  · show setFromArray (scanContracts 0 exampleText) ≠ _
    decide

/-- C5 (amended): when `transformNewsToFormat` returns. It returns an item exactly
for the raw messages whose `text || title || ''` is a string and whose title
expression can be evaluated (`title` truthy, or `user` falsy, or `user`
convertible to a string); on every other message it throws, and what it throws
is a `TypeError`. -/
theorem transform_returns_iff (h : Host) (message : JSObject) :
    ((∃ item, transformNewsToFormat h message = .ok item)
        ↔ ((∃ s, fullTextOf message = .str s) ∧ TitleBuilds message))
      ∧ (∀ e, transformNewsToFormat h message = .error e → e = .typeError) := by
  by_cases hft : ∃ s, fullTextOf message = .str s
  · obtain ⟨s, hs⟩ := hft
    by_cases hb : TitleBuilds message
    · obtain ⟨t, ht⟩ := titleOf_ok message hb
      rw [transform_ok h message s t hs ht]
      exact ⟨⟨fun _ => ⟨⟨s, hs⟩, hb⟩, fun _ => ⟨_, rfl⟩⟩, fun e he => by simp at he⟩
    · have ht := titleOf_error message hb
      have hr : transformNewsToFormat h message = .error .typeError := by
        simp [transformNewsToFormat, categoryOf, hs, ht, callToLowerCase, callMatchContracts,
          callMatchTokens]
      rw [hr]
      refine ⟨⟨fun ⟨_, hi⟩ => by simp at hi, fun ⟨_, hb2⟩ => absurd hb2 hb⟩, fun e he => ?_⟩
      injection he with he
      exact he.symm
  · have hr : transformNewsToFormat h message = .error .typeError := by
      have hc : categoryOf h message = .error .typeError := by
        unfold categoryOf
        cases hv : fullTextOf message with
        | str s => exact absurd ⟨s, hv⟩ hft
        | _ => simp [callToLowerCase]
      simp [transformNewsToFormat, hc]
    rw [hr]
    refine ⟨⟨fun ⟨_, hi⟩ => by simp at hi, fun ⟨hs, _⟩ => absurd hs hft⟩, fun e he => ?_⟩
    injection he with he
    exact he.symm

/-- C5 (amended) at the end-to-end example, which returns, at a message with a
numeric `text`, whose only failure is a `TypeError`, and at a message whose
`user` object has an own `toString` property, for which nothing is returned. -/
theorem transform_returns_iff_witness :
    (∃ item, transformNewsToFormat plainHost exampleMessage = .ok item)
      ∧ (∀ e, transformNewsToFormat plainHost numericTextMessage = .error e → e = .typeError)
      ∧ ¬ ((∃ s, fullTextOf launchWithOddUser = .str s) ∧ TitleBuilds launchWithOddUser) :=
  ⟨(transform_returns_iff plainHost exampleMessage).1.2
      ⟨⟨exampleText, rfl⟩, Or.inr (fun hu => absurd hu (by decide))⟩,
    (transform_returns_iff plainHost numericTextMessage).2,
    fun hb => by
      obtain ⟨item, hi⟩ := (transform_returns_iff plainHost launchWithOddUser).1.2 hb
      have he : transformNewsToFormat plainHost launchWithOddUser = .error .typeError := rfl
      rw [he] at hi
      exact absurd hi (by simp)⟩

/-- C5, as stated, fails: on `{type: "news", text: 5}` the function throws. -/
theorem transform_total_counterexample :
    transformNewsToFormat plainHost numericTextMessage = .error .typeError := rfl


/-- C6: defaults for a minimal message. When `text`, `title`, `id`, `tweetId`,
`source`, `user`, `body`, `url`, `link`, `timestamp` and `createdAt` are all
absent, then for every clock value and random token the function returns the
item with category `general`, no contracts, no tokens, empty body, source
`tree_of_alpha`, title and url `null`, the current ISO time as timestamp and the
identifier `news-` + clock in milliseconds + `-` + random token, which is not
empty. -/
theorem defaults_minimal (h : Host) (message : JSObject)
    (habsent : ∀ k ∈ optionalKeys, hasProp message k = false) :
    transformNewsToFormat h message = .ok
        { id := .str (js "news-" ++ js (toString h.dateNow) ++ js "-" ++ h.randomToken)
          source := .str (js "tree_of_alpha")
          title := .null
          body := .str []
          url := .null
          timestamp := .str h.isoNow
          category := js "general"
          contracts := []
          tokens := [] }
      ∧ js "news-" ++ js (toString h.dateNow) ++ js "-" ++ h.randomToken ≠ [] := by
  have hk : ∀ k ∈ optionalKeys, getProp message k = .undefined :=
    fun k hk => getProp_of_absent message k (habsent k hk)
  have h1 := hk (js "text") (by simp [optionalKeys])
  have h2 := hk (js "title") (by simp [optionalKeys])
  have h3 := hk (js "id") (by simp [optionalKeys])
  have h4 := hk (js "tweetId") (by simp [optionalKeys])
  have h5 := hk (js "source") (by simp [optionalKeys])
  have h6 := hk (js "user") (by simp [optionalKeys])
  have h7 := hk (js "body") (by simp [optionalKeys])
  have h8 := hk (js "url") (by simp [optionalKeys])
  have h9 := hk (js "link") (by simp [optionalKeys])
  have h10 := hk (js "timestamp") (by simp [optionalKeys])
  have h11 := hk (js "createdAt") (by simp [optionalKeys])
  have hft : fullTextOf message = .str [] := by
    simp only [fullTextOf, jsOr, h1, h2]; rfl
  have ht : titleOf message = .ok .null := by
    simp only [titleOf, h2, h6]; rfl
  constructor
  · rw [transform_ok h message [] .null hft ht]
    simp only [h1, h3, h4, h5, h7, h8, h9, h10, h11, jsOr, truthy, generatedId]
    rfl
  · intro hnil
    have : (js "news-" ++ js (toString h.dateNow) ++ js "-" ++ h.randomToken).length = 0 := by
      rw [hnil]; rfl
    simp [js] at this

/-- C6 at the message `{type: "news"}`. -/
theorem defaults_minimal_witness :
    ∃ item, transformNewsToFormat plainHost [(js "type", .str (js "news"))] = .ok item
      ∧ item.category = js "general" ∧ item.contracts = [] ∧ item.tokens = []
      ∧ item.title = .null ∧ item.body = .str [] :=
  ⟨_, (defaults_minimal plainHost [(js "type", .str (js "news"))] (by decide)).1,
    rfl, rfl, rfl, rfl, rfl⟩


/-! ## `broadcastToClients` -/

theorem broadcast_fold (m : JSString) (cs : List Client) (s0 : Server) :
    (cs.foldl (broadcastStep m) (s0, none)).2 = none
      ∧ (cs.foldl (broadcastStep m) (s0, none)).1.clients = s0.clients
      ∧ (cs.foldl (broadcastStep m) (s0, none)).1.sendAttempts
          = s0.sendAttempts ++ (cs.filter (fun c => c.readyState = 1)).map (fun c => (c.id, m))
      ∧ (cs.foldl (broadcastStep m) (s0, none)).1.delivered
          = s0.delivered
            ++ (cs.filter (fun c => c.readyState = 1 ∧ c.sendThrows = false)).map
                (fun c => (c.id, m))
      ∧ (cs.foldl (broadcastStep m) (s0, none)).1.errorsLogged
          = s0.errorsLogged
            + (cs.filter (fun c => c.readyState = 1 ∧ c.sendThrows = true)).length
      ∧ (cs.foldl (broadcastStep m) (s0, none)).1.broadcasts = s0.broadcasts
      ∧ (cs.foldl (broadcastStep m) (s0, none)).1.messageCount = s0.messageCount
      ∧ (cs.foldl (broadcastStep m) (s0, none)).1.lastMessageTime = s0.lastMessageTime
      ∧ (cs.foldl (broadcastStep m) (s0, none)).1.toaConnection = s0.toaConnection
      ∧ (cs.foldl (broadcastStep m) (s0, none)).1.pendingReconnects = s0.pendingReconnects
      ∧ (cs.foldl (broadcastStep m) (s0, none)).1.connectCalls = s0.connectCalls
      ∧ (cs.foldl (broadcastStep m) (s0, none)).1.stopped = s0.stopped
      ∧ (cs.foldl (broadcastStep m) (s0, none)).1.exited = s0.exited := by
  induction cs generalizing s0 with
  | nil => simp
  | cons c cs ih =>
    rw [List.foldl_cons]
    by_cases ho : c.readyState = 1
    · by_cases ht : c.sendThrows = true
      · have hstep : broadcastStep m (s0, none) c
            = ({ s0 with sendAttempts := s0.sendAttempts ++ [(c.id, m)],
                         errorsLogged := s0.errorsLogged + 1 }, none) := by
          simp [broadcastStep, clientSend, ho, ht]
        rw [hstep]
        have := ih { s0 with sendAttempts := s0.sendAttempts ++ [(c.id, m)],
                             errorsLogged := s0.errorsLogged + 1 }
        simpa [ho, ht, List.filter_cons, Nat.add_assoc, Nat.add_comm 1] using this
      · have ht2 : c.sendThrows = false := by simpa using ht
        have hstep : broadcastStep m (s0, none) c
            = ({ s0 with sendAttempts := s0.sendAttempts ++ [(c.id, m)],
                         delivered := s0.delivered ++ [(c.id, m)] }, none) := by
          simp [broadcastStep, clientSend, ho, ht2]
        rw [hstep]
        have := ih { s0 with sendAttempts := s0.sendAttempts ++ [(c.id, m)],
                             delivered := s0.delivered ++ [(c.id, m)] }
        simpa [ho, ht2, List.filter_cons] using this
    · have hstep : broadcastStep m (s0, none) c = (s0, none) := by
        simp [broadcastStep, ho]
      rw [hstep]
      simpa [ho, List.filter_cons] using ih s0

theorem mem_sends (m : JSString) (cs : List Client) (p : Client → Bool)
    (hid : (cs.map (fun c => c.id)).Nodup) :
    (((cs.filter p).map (fun c => (c.id, m))).map Prod.fst).Nodup
      ∧ ∀ c ∈ cs, (c.id ∈ ((cs.filter p).map (fun c => (c.id, m))).map Prod.fst ↔ p c = true) := by
  have h2 : ((cs.filter p).map (fun c => (c.id, m))).map Prod.fst
      = (cs.filter p).map (fun c => c.id) := by simp [Function.comp_def]
  rw [h2]
  refine ⟨hid.sublist ((List.filter_sublist cs).map _), ?_⟩
  intro c hc
  have hinj : ∀ c' ∈ cs, c'.id = c.id → c' = c := by
    intro c' hc' hidc
    exact List.inj_on_of_nodup_map hid hc' hc hidc
  constructor
  · intro hmem
    obtain ⟨c', hc', heq⟩ := List.mem_map.1 hmem
    have hc'' := List.mem_filter.1 hc'
    have : c' = c := hinj c' hc''.1 heq
    rw [this] at hc''
    exact hc''.2
  · intro hp
    exact List.mem_map.2 ⟨c, List.mem_filter.2 ⟨hc, hp⟩, rfl⟩

/-- C7: broadcast isolation. `broadcastToClients` does not throw and leaves the
set of clients as it was; the item is handed over once; the calls of `send` are
exactly one per open client, in iteration order, none for a client that is not
open, all with the one serialized string; the sends that succeed are those to
the open clients whose `send` does not throw, so a throwing client neither
receives the item nor keeps another open client from receiving it. -/
theorem broadcast_isolation (stringify : NewsItem → JSString) (newsItem : NewsItem) (s : Server) :
    (broadcastToClients stringify newsItem s).2 = none
      ∧ (broadcastToClients stringify newsItem s).1.clients = s.clients
      ∧ (broadcastToClients stringify newsItem s).1.broadcasts = s.broadcasts ++ [newsItem]
      ∧ (∃ sends received,
          (broadcastToClients stringify newsItem s).1.sendAttempts = s.sendAttempts ++ sends
          ∧ (broadcastToClients stringify newsItem s).1.delivered = s.delivered ++ received
          ∧ sends = (s.clients.filter (fun c => c.readyState = 1)).map
                (fun c => (c.id, stringify newsItem))
          ∧ received = (s.clients.filter (fun c => c.readyState = 1 ∧ c.sendThrows = false)).map
                (fun c => (c.id, stringify newsItem))
          ∧ ((s.clients.map (fun c => c.id)).Nodup →
              (sends.map Prod.fst).Nodup ∧ (received.map Prod.fst).Nodup
              ∧ ∀ c ∈ s.clients,
                (c.id ∈ sends.map Prod.fst ↔ c.readyState = 1)
                ∧ (c.id ∈ received.map Prod.fst ↔ c.readyState = 1 ∧ c.sendThrows = false))) := by
  have := broadcast_fold (stringify newsItem) s.clients
    { s with broadcasts := s.broadcasts ++ [newsItem] }
  obtain ⟨h1, h2, h3, h4, -, h6, -⟩ := this
  refine ⟨h1, h2, h6, _, _, h3, h4, rfl, rfl, ?_⟩
  intro hid
  have ha := mem_sends (stringify newsItem) s.clients (fun c => decide (c.readyState = 1)) hid
  have hb := mem_sends (stringify newsItem) s.clients
    (fun c => decide (c.readyState = 1 ∧ c.sendThrows = false)) hid
  refine ⟨ha.1, hb.1, fun c hc => ⟨?_, ?_⟩⟩
  · simpa using ha.2 c hc
  · simpa using hb.2 c hc

/-- C7 at four sockets, the second of which throws and the third of which is
closed: the first and the fourth receive the item. -/
theorem broadcast_isolation_witness :
    (broadcastToClients (fun _ => js "item") sampleItem (initialServer sampleClients)).2 = none
      ∧ (broadcastToClients (fun _ => js "item") sampleItem
          (initialServer sampleClients)).1.delivered = [(1, js "item"), (4, js "item")]
      ∧ (broadcastToClients (fun _ => js "item") sampleItem
          (initialServer sampleClients)).1.clients = sampleClients := by
  obtain ⟨h1, h2, -, sends, received, -, h5, -, h7, -⟩ :=
    broadcast_isolation (fun _ => js "item") sampleItem (initialServer sampleClients)
  refine ⟨h1, ?_, h2⟩
  rw [h5, h7]
  decide


/-! ## The upstream `message` handler -/

theorem broadcast_frame (stringify : NewsItem → JSString) (newsItem : NewsItem) (s : Server) :
    (broadcastToClients stringify newsItem s).2 = none
      ∧ (broadcastToClients stringify newsItem s).1.broadcasts = s.broadcasts ++ [newsItem]
      ∧ (broadcastToClients stringify newsItem s).1.messageCount = s.messageCount
      ∧ (broadcastToClients stringify newsItem s).1.lastMessageTime = s.lastMessageTime
      ∧ (broadcastToClients stringify newsItem s).1.toaConnection = s.toaConnection
      ∧ (broadcastToClients stringify newsItem s).1.pendingReconnects = s.pendingReconnects
      ∧ (broadcastToClients stringify newsItem s).1.connectCalls = s.connectCalls
      ∧ (broadcastToClients stringify newsItem s).1.stopped = s.stopped
      ∧ (broadcastToClients stringify newsItem s).1.exited = s.exited := by
  obtain ⟨h1, -, -, -, -, h6, h7, h8, h9, h10, h11, h12, h13⟩ :=
    broadcast_fold (stringify newsItem) s.clients
      { s with broadcasts := s.broadcasts ++ [newsItem] }
  exact ⟨h1, h6, h7, h8, h9, h10, h11, h12, h13⟩

/-- The handler on an object that it counts. -/
theorem onMessage_counted (h : Host) (stringify : NewsItem → JSString) (ps : JSObject)
    (s : Server)
    (hc : (isNews (getProp ps (js "type")) || truthy (getProp ps (js "text"))) = true) :
    (onMessage h stringify (.ok (.obj ps)) s).2 = none
      ∧ (onMessage h stringify (.ok (.obj ps)) s).1.messageCount = s.messageCount + 1
      ∧ (onMessage h stringify (.ok (.obj ps)) s).1.lastMessageTime = some h.messageTime
      ∧ (onMessage h stringify (.ok (.obj ps)) s).1.broadcasts
          = (match transformNewsToFormat h ps with
             | .ok item => s.broadcasts ++ [item]
             | .error _ => s.broadcasts)
      ∧ (onMessage h stringify (.ok (.obj ps)) s).1.toaConnection = s.toaConnection
      ∧ (onMessage h stringify (.ok (.obj ps)) s).1.pendingReconnects = s.pendingReconnects
      ∧ (onMessage h stringify (.ok (.obj ps)) s).1.connectCalls = s.connectCalls := by
  cases ht : transformNewsToFormat h ps with
  | error e => simp [onMessage, onMessageBody, hc, ht]
  | ok item =>
    obtain ⟨h1, h2, h3, h4, h5, h6, h7, -, -⟩ := broadcast_frame stringify item
      { s with messageCount := s.messageCount + 1, lastMessageTime := some h.messageTime }
    rcases hb : broadcastToClients stringify item
      { s with messageCount := s.messageCount + 1, lastMessageTime := some h.messageTime }
      with ⟨s2, e⟩
    rw [hb] at h1 h2 h3 h4 h5 h6 h7
    simp only at h1 h2 h3 h4 h5 h6 h7
    subst h1
    cases hsub : callSubstring (fullTextOf ps) <;>
      simp [onMessage, onMessageBody, hc, ht, hb, hsub, h2, h3, h4, h5, h6, h7]

/-- The handler on a payload that it does not count. -/
theorem onMessage_not_counted (h : Host) (stringify : NewsItem → JSString)
    (parsed : Except JSError JSVal) (s : Server) (hc : isCounted parsed = false) :
    (onMessage h stringify parsed s).2 = none
      ∧ (onMessage h stringify parsed s).1.messageCount = s.messageCount
      ∧ (onMessage h stringify parsed s).1.lastMessageTime = s.lastMessageTime
      ∧ (onMessage h stringify parsed s).1.broadcasts = s.broadcasts
      ∧ (onMessage h stringify parsed s).1.sendAttempts = s.sendAttempts
      ∧ (onMessage h stringify parsed s).1.toaConnection = s.toaConnection
      ∧ (onMessage h stringify parsed s).1.pendingReconnects = s.pendingReconnects
      ∧ (onMessage h stringify parsed s).1.connectCalls = s.connectCalls := by
  cases parsed with
  | error e => simp [onMessage]
  | ok v =>
    cases v with
    | obj ps =>
      have hc2 : (isNews (getProp ps (js "type")) || truthy (getProp ps (js "text"))) = false := hc
      simp [onMessage, onMessageBody, hc2]
    | _ => simp [onMessage, onMessageBody]


theorem onMessage_step (h : Host) (stringify : NewsItem → JSString)
    (parsed : Except JSError JSVal) (s : Server) :
    (onMessage h stringify parsed s).1.messageCount
        = s.messageCount + (if isCounted parsed = true then 1 else 0)
      ∧ (onMessage h stringify parsed s).1.broadcasts.length
        = s.broadcasts.length + (if isRelayed h parsed = true then 1 else 0)
      ∧ (onMessage h stringify parsed s).1.toaConnection = s.toaConnection
      ∧ (onMessage h stringify parsed s).1.pendingReconnects = s.pendingReconnects
      ∧ (onMessage h stringify parsed s).1.connectCalls = s.connectCalls := by
  by_cases hc : isCounted parsed = true
  · cases parsed with
    | error e => simp [isCounted] at hc
    | ok v =>
      cases v with
      | obj ps =>
        have hc2 : (isNews (getProp ps (js "type")) || truthy (getProp ps (js "text"))) = true := hc
        obtain ⟨-, h2, -, h4, h5, h6, h7⟩ := onMessage_counted h stringify ps s hc2
        refine ⟨by rw [h2]; simp [hc], ?_, h5, h6, h7⟩
        rw [h4]
        cases ht : transformNewsToFormat h ps <;> simp [isRelayed, hc, ht, Except.toBool]
      | _ => simp [isCounted] at hc
  · have hc2 : isCounted parsed = false := by simpa using hc
    obtain ⟨-, h2, -, h4, -, h6, h7, h8⟩ := onMessage_not_counted h stringify parsed s hc2
    refine ⟨by rw [h2]; simp [hc2], ?_, h6, h7, h8⟩
    rw [h4]
    simp [isRelayed, hc2]

theorem relay_counts (stringify : NewsItem → JSString) (frames : List (Host × Except JSError JSVal))
    (s : Server) :
    (relay stringify s frames).messageCount
        = s.messageCount + (frames.filter (fun f => isCounted f.2)).length
      ∧ (relay stringify s frames).broadcasts.length
        = s.broadcasts.length + (frames.filter (fun f => isRelayed f.1 f.2)).length
      ∧ (relay stringify s frames).toaConnection = s.toaConnection
      ∧ (relay stringify s frames).pendingReconnects = s.pendingReconnects
      ∧ (relay stringify s frames).connectCalls = s.connectCalls := by
  induction frames generalizing s with
  | nil => simp [relay]
  | cons f frames ih =>
    obtain ⟨a1, a2, a3, a4, a5⟩ := onMessage_step f.1 stringify f.2 s
    obtain ⟨b1, b2, b3, b4, b5⟩ := ih (onMessage f.1 stringify f.2 s).1
    have hr : relay stringify s (f :: frames)
        = relay stringify (onMessage f.1 stringify f.2 s).1 frames := rfl
    rw [hr]
    refine ⟨?_, ?_, b3.trans a3, b4.trans a4, b5.trans a5⟩
    · rw [b1, a1, List.filter_cons]
      by_cases hc : isCounted f.2 = true
      · simp [hc]; omega
      · simp [hc]
    · rw [b2, a2, List.filter_cons]
      by_cases hc : isRelayed f.1 f.2 = true
      · simp [hc]; omega
      · simp [hc]

/-- C9 (amended): the upstream `message` handler. For every payload the handler
does not throw and leaves the upstream connection, the reconnect timers and the
number of connection attempts untouched. A payload it does not count (parse
failure, `null`, a primitive, an array, an object without `type == "news"` and
without a truthy `text`) leaves counter, last-message time and broadcasts
unchanged and sends nothing. A counted payload increases the counter by one and
records the receipt time; it is broadcast, exactly once, when
`transformNewsToFormat` returns an item for it, and not at all when that call
throws. Hence after any sequence of frames the counter grows by the number of
counted frames, the broadcasts by the number of counted frames for which the
transformation returned, and the second number is at most the first. -/
theorem inbound_message_handling (stringify : NewsItem → JSString) (s : Server) :
    (∀ (h : Host) (parsed : Except JSError JSVal),
        (onMessage h stringify parsed s).2 = none
        ∧ (onMessage h stringify parsed s).1.toaConnection = s.toaConnection
        ∧ (onMessage h stringify parsed s).1.pendingReconnects = s.pendingReconnects
        ∧ (onMessage h stringify parsed s).1.connectCalls = s.connectCalls
        ∧ (isCounted parsed = false →
            (onMessage h stringify parsed s).1.messageCount = s.messageCount
            ∧ (onMessage h stringify parsed s).1.lastMessageTime = s.lastMessageTime
            ∧ (onMessage h stringify parsed s).1.broadcasts = s.broadcasts
            ∧ (onMessage h stringify parsed s).1.sendAttempts = s.sendAttempts)
        ∧ (∀ ps, parsed = .ok (.obj ps) →
            (isNews (getProp ps (js "type")) = true ∨ truthy (getProp ps (js "text")) = true) →
            (onMessage h stringify parsed s).1.messageCount = s.messageCount + 1
            ∧ (onMessage h stringify parsed s).1.lastMessageTime = some h.messageTime
            ∧ (∀ item, transformNewsToFormat h ps = .ok item →
                (onMessage h stringify parsed s).1.broadcasts = s.broadcasts ++ [item])
            ∧ (∀ e, transformNewsToFormat h ps = .error e →
                (onMessage h stringify parsed s).1.broadcasts = s.broadcasts)))
      ∧ (∀ e, isCounted (.error e) = false)
      ∧ (∀ frames : List (Host × Except JSError JSVal),
          (relay stringify s frames).messageCount
              = s.messageCount + (frames.filter (fun f => isCounted f.2)).length
          ∧ (relay stringify s frames).broadcasts.length
              = s.broadcasts.length + (frames.filter (fun f => isRelayed f.1 f.2)).length
          ∧ (frames.filter (fun f => isRelayed f.1 f.2)).length
              ≤ (frames.filter (fun f => isCounted f.2)).length) := by
  refine ⟨fun h parsed => ?_, fun _ => rfl, fun frames => ?_⟩
  · have hstep := onMessage_step h stringify parsed s
    have hthrow : (onMessage h stringify parsed s).2 = none := by
      by_cases hc : isCounted parsed = true
      · cases parsed with
        | error e => simp [isCounted] at hc
        | ok v =>
          cases v with
          | obj ps => exact (onMessage_counted h stringify ps s hc).1
          | _ => simp [isCounted] at hc
      · exact (onMessage_not_counted h stringify parsed s (by simpa using hc)).1
    refine ⟨hthrow, hstep.2.2.1, hstep.2.2.2.1, hstep.2.2.2.2, ?_, ?_⟩
    · intro hc
      obtain ⟨-, h2, h3, h4, h5, -⟩ := onMessage_not_counted h stringify parsed s hc
      exact ⟨h2, h3, h4, h5⟩
    · intro ps hp hc
      subst hp
      have hc2 : (isNews (getProp ps (js "type")) || truthy (getProp ps (js "text"))) = true := by
        rcases hc with hc | hc <;> simp [hc]
      obtain ⟨-, h2, h3, h4, -⟩ := onMessage_counted h stringify ps s hc2
      refine ⟨h2, h3, fun item hi => ?_, fun e he => ?_⟩
      · rw [h4, hi]
      · rw [h4, he]
  · obtain ⟨h1, h2, -⟩ := relay_counts stringify frames s
    refine ⟨h1, h2, ?_⟩
    apply List.Sublist.length_le
    apply List.monotone_filter_right
    intro f hf
    simp only [isRelayed, Bool.and_eq_true] at hf
    exact hf.1

/-- C9 (amended) at the end-to-end example, which is counted, and at a payload
that does not parse, which is not. -/
theorem inbound_message_handling_witness :
    (onMessage plainHost (fun _ => []) (.ok (.obj exampleMessage))
        (initialServer sampleClients)).1.messageCount = 1
      ∧ (onMessage plainHost (fun _ => []) (.error .syntaxError)
        (initialServer sampleClients)).1.messageCount = 0 :=
  ⟨(((inbound_message_handling (fun _ => []) (initialServer sampleClients)).1 plainHost
        (.ok (.obj exampleMessage))).2.2.2.2.2 exampleMessage rfl (Or.inl rfl)).1,
   (((inbound_message_handling (fun _ => []) (initialServer sampleClients)).1 plainHost
        (.error .syntaxError)).2.2.2.2.1 rfl).1⟩

/-- C9, as stated, fails: `{type: "news", text: 5}` is counted and nothing is
broadcast, so the counter and the number of broadcasts differ. -/
theorem inbound_message_counterexample :
    isNews (getProp numericTextMessage (js "type")) = true
      ∧ (onMessage plainHost (fun _ => []) (.ok (.obj numericTextMessage))
          (initialServer sampleClients)).1.messageCount = 1
      ∧ (onMessage plainHost (fun _ => []) (.ok (.obj numericTextMessage))
          (initialServer sampleClients)).1.broadcasts.length = 0
      ∧ (relay (fun _ => []) (initialServer sampleClients)
          [(plainHost, .ok (.obj numericTextMessage))]).messageCount
        ≠ (relay (fun _ => []) (initialServer sampleClients)
          [(plainHost, .ok (.obj numericTextMessage))]).broadcasts.length := by
  refine ⟨rfl, rfl, rfl, ?_⟩
  decide


/-! ## The upstream link: reconnection and shutdown -/

theorem step_exited (stringify : NewsItem → JSString) (s : Server) (hx : s.exited = true)
    (e : Event) : step stringify s e = s := by
  cases e <;> simp [step, hx]

theorem run_exited (stringify : NewsItem → JSString) (events : List Event) (s : Server)
    (hx : s.exited = true) : run stringify s events = s := by
  induction events with
  | nil => rfl
  | cons e events ih =>
    show run stringify (step stringify s e) events = s
    rw [step_exited stringify s hx e]
    exact ih

theorem step_no_connect (stringify : NewsItem → JSString) (s : Server) (e : Event)
    (he : e.isConnect = false) : (step stringify s e).connectCalls = s.connectCalls := by
  cases e with
  | start b => simp [Event.isConnect] at he
  | timerFires b => simp [Event.isConnect] at he
  | upstreamOpen =>
    simp only [step]
    split
    · rfl
    · split <;> rfl
  | upstreamMessage h parsed =>
    simp only [step]
    split
    · rfl
    · split
      · rfl
      · exact (onMessage_step h stringify parsed s).2.2.2.2
  | upstreamError => rfl
  | upstreamClose =>
    simp only [step]
    split
    · rfl
    · split <;> rfl
  | shutdownSignal =>
    simp only [step]
    split <;> rfl
  | serversClosed =>
    simp only [step]
    split
    · rfl
    · split <;> rfl

theorem run_no_connect (stringify : NewsItem → JSString) (events : List Event) (s : Server)
    (he : ∀ e ∈ events, e.isConnect = false) :
    (run stringify s events).connectCalls = s.connectCalls := by
  induction events generalizing s with
  | nil => rfl
  | cons e events ih =>
    show (run stringify (step stringify s e) events).connectCalls = s.connectCalls
    rw [ih _ (fun e' he' => he e' (List.mem_cons_of_mem _ he'))]
    exact step_no_connect stringify s e (he e (List.mem_cons_self _ _))

/-- What the shutdown path does, step by step: the signal handler marks the stop
and starts closing an open upstream socket, and leaves the pending timers and
the number of connection attempts as they were; the `close` event of that socket
sets one more timer; a pending timer that fires while the process lives invokes
`connectToTreeOfAlpha`; no other event does, and after the exit nothing does. -/
theorem shutdown_path (stringify : NewsItem → JSString) (s : Server) :
    (s.exited = false →
        (step stringify s .shutdownSignal).stopped = true
        ∧ (step stringify s .shutdownSignal).pendingReconnects = s.pendingReconnects
        ∧ (step stringify s .shutdownSignal).connectCalls = s.connectCalls
        ∧ (s.toaConnection = some 1 →
            (step stringify s .shutdownSignal).toaConnection = some 2))
      ∧ (s.exited = false → s.toaConnection = some 2 →
          (step stringify s .upstreamClose).pendingReconnects = s.pendingReconnects + 1)
      ∧ (s.exited = false → 0 < s.pendingReconnects → ∀ b,
          (step stringify s (.timerFires b)).connectCalls = s.connectCalls + 1)
      ∧ (∀ events, (∀ e ∈ events, e.isConnect = false) →
          (run stringify s events).connectCalls = s.connectCalls)
      ∧ (s.exited = true → ∀ events, (run stringify s events).connectCalls = s.connectCalls) := by
  refine ⟨fun hx => ?_, fun hx hc => ?_, fun hx hp b => ?_,
    fun events he => run_no_connect stringify events s he,
    fun hx events => by rw [run_exited stringify events s hx]⟩
  · refine ⟨by simp [step, hx, onShutdownSignal], by simp [step, hx, onShutdownSignal],
      by simp [step, hx, onShutdownSignal], fun hc => ?_⟩
    simp [step, hx, onShutdownSignal, hc]
  · simp [step, hx, hc, onUpstreamClose]
  · have hp2 : s.pendingReconnects ≠ 0 := by omega
    simp only [step, hx, hp2, if_false, Bool.false_eq_true]
    unfold connectToTreeOfAlpha
    simp only
    split
    · rfl
    · split <;> rfl

/-- C8: stop does not cancel reconnection; the code misses what the claim and its
own `Graceful shutdown` comment say. When the signal arrives while the upstream
socket is open and the process stays alive (a connected subscriber keeps the
HTTP server from closing), the handler starts closing the socket, the `close`
handler sets the reconnect timer, and five seconds later
`connectToTreeOfAlpha` runs a second time and opens a new socket; once that
socket is open, frames are counted, broadcast and delivered again. A timer that
was already pending when the signal arrived fires as well, and a frame that
arrives while the socket is closing is still handled. -/
theorem shutdown_then_reconnect :
    (run (fun _ => js "item") (initialServer sampleClients)
        [.start false, .upstreamOpen, .shutdownSignal]).stopped = true
      ∧ (run (fun _ => js "item") (initialServer sampleClients)
        [.start false, .upstreamOpen, .shutdownSignal]).toaConnection = some 2
      ∧ (run (fun _ => js "item") (initialServer sampleClients)
        [.start false, .upstreamOpen, .shutdownSignal]).connectCalls = 1
      ∧ (run (fun _ => js "item") (initialServer sampleClients)
        [.start false, .upstreamOpen, .shutdownSignal, .upstreamClose]).pendingReconnects = 1
      ∧ (run (fun _ => js "item") (initialServer sampleClients) signalWhileOpen).connectCalls = 2
      ∧ (run (fun _ => js "item") (initialServer sampleClients) signalWhileOpen).toaConnection
          = some 0
      ∧ (run (fun _ => js "item") (initialServer sampleClients) signalWhileOpen).exited = false
      ∧ (run (fun _ => js "item") (initialServer sampleClients)
          (signalWhileOpen ++ [.upstreamOpen,
            .upstreamMessage plainHost (.ok (.obj exampleMessage))])).messageCount = 1
      ∧ (run (fun _ => js "item") (initialServer sampleClients)
          (signalWhileOpen ++ [.upstreamOpen,
            .upstreamMessage plainHost (.ok (.obj exampleMessage))])).delivered
          = [(1, js "item"), (4, js "item")]
      ∧ (run (fun _ => js "item") (initialServer sampleClients)
          signalWhileWaiting).connectCalls = 2
      ∧ (run (fun _ => js "item") (initialServer sampleClients)
          [.start false, .upstreamOpen, .shutdownSignal,
            .upstreamMessage plainHost (.ok (.obj exampleMessage))]).messageCount = 1 := by
  refine ⟨rfl, rfl, rfl, rfl, rfl, rfl, rfl, rfl, ?_, rfl, rfl⟩
  decide

/-! ## `[...new Set(xs)]` -/

theorem foldl_setAdd (xs : List JSString) (acc : List JSString) :
    ∃ ys, xs.foldl setAdd acc = acc ++ ys ∧ ys.Nodup
      ∧ (∀ y ∈ ys, y ∉ acc ∧ y ∈ xs)
      ∧ (∀ x ∈ xs, x ∈ acc ∨ x ∈ ys)
      ∧ ys.Pairwise (fun a b => ∃ l1 l2, xs = l1 ++ a :: l2 ∧ b ∉ l1 ∧ a ≠ b) := by
  induction xs generalizing acc with
  | nil => exact ⟨[], by simp⟩
  | cons x xs ih =>
    rw [List.foldl_cons]
    by_cases hx : x ∈ acc
    · obtain ⟨ys, h1, h2, h3, h4, h5⟩ := ih acc
      refine ⟨ys, by simp [setAdd, hx, h1], h2, ?_, ?_, ?_⟩
      · intro y hy
        exact ⟨(h3 y hy).1, List.mem_cons_of_mem _ (h3 y hy).2⟩
      · intro z hz
        rcases List.mem_cons.1 hz with rfl | hz
        · exact Or.inl hx
        · exact h4 z hz
      · refine h5.imp_of_mem ?_
        intro a b _ hb ⟨l1, l2, e, hn, hab⟩
        refine ⟨x :: l1, l2, by simp [e], ?_, hab⟩
        intro hmem
        rcases List.mem_cons.1 hmem with rfl | hmem
        · exact (h3 _ hb).1 hx
        · exact hn hmem
    · obtain ⟨ys, h1, h2, h3, h4, h5⟩ := ih (acc ++ [x])
      have hxy : x ∉ ys := fun hmem => (h3 x hmem).1 (by simp)
      refine ⟨x :: ys, by simp [setAdd, hx, h1], List.nodup_cons.2 ⟨hxy, h2⟩, ?_, ?_, ?_⟩
      · intro y hy
        rcases List.mem_cons.1 hy with rfl | hy
        · exact ⟨hx, List.mem_cons_self _ _⟩
        · exact ⟨fun hmem => (h3 y hy).1 (List.mem_append_left _ hmem),
            List.mem_cons_of_mem _ (h3 y hy).2⟩
      · intro z hz
        rcases List.mem_cons.1 hz with rfl | hz
        · exact Or.inr (List.mem_cons_self _ _)
        · rcases h4 z hz with h | h
          · rcases List.mem_append.1 h with h | h
            · exact Or.inl h
            · rw [List.mem_singleton.1 h]; exact Or.inr (List.mem_cons_self _ _)
          · exact Or.inr (List.mem_cons_of_mem _ h)
      · refine List.pairwise_cons.2 ⟨?_, ?_⟩
        · intro b hb
          exact ⟨[], xs, rfl, by simp, fun hab => hxy (hab ▸ hb)⟩
        · refine h5.imp_of_mem ?_
          intro a b _ hb ⟨l1, l2, e, hn, hab⟩
          refine ⟨x :: l1, l2, by simp [e], ?_, hab⟩
          intro hmem
          rcases List.mem_cons.1 hmem with rfl | hmem
          · exact hxy hb
          · exact hn hmem

/-- The array built from a set: no duplicates, the same members, in the order of
their first occurrence in `xs`. -/
theorem setFromArray_spec (xs : List JSString) :
    (setFromArray xs).Nodup ∧ (∀ x, x ∈ setFromArray xs ↔ x ∈ xs)
      ∧ (setFromArray xs).Pairwise (fun a b => ∃ l1 l2, xs = l1 ++ a :: l2 ∧ b ∉ l1 ∧ a ≠ b) := by
  obtain ⟨ys, h1, h2, h3, h4, h5⟩ := foldl_setAdd xs []
  have he : setFromArray xs = ys := by simpa [setFromArray] using h1
  rw [he]
  refine ⟨h2, fun x => ⟨fun hx => (h3 x hx).2, fun hx => ?_⟩, h5⟩
  rcases h4 x hx with h | h
  · simp at h
  · exact h

/-- Order of first occurrence, for the values of `f` along an increasing list of positions. -/
theorem setFromArray_map_order (ps : List Nat) (f : Nat → JSString)
    (hsorted : ps.Pairwise (fun p q => p < q)) :
    (setFromArray (ps.map f)).Pairwise
      (fun a b => ∃ p ∈ ps, f p = a ∧ ∀ q ∈ ps, f q = b → p < q) := by
  refine (setFromArray_spec (ps.map f)).2.2.imp ?_
  rintro a b ⟨l1, l2, e, hn, hab⟩
  obtain ⟨ps1, ps2, rfl, e1, e2⟩ := List.map_eq_append_iff.1 e
  obtain ⟨p, ps3, rfl, e3, -⟩ := List.map_eq_cons_iff.1 e2
  refine ⟨p, by simp, e3, ?_⟩
  intro q hq hfq
  rcases List.mem_append.1 hq with hq | hq
  · exact absurd (e1 ▸ hfq ▸ List.mem_map_of_mem f hq) hn
  · rcases List.mem_cons.1 hq with rfl | hq
    · exact absurd (e3.symm.trans hfq) hab
    · have := (List.pairwise_append.1 hsorted).2.1
      exact List.rel_of_pairwise_cons this hq


/-! ## The contract scan -/

theorem matchContractAt_some (s m : JSString) :
    matchContractAt s = some m ↔ IsContract m ∧ ∃ post, s = m ++ post := by
  constructor
  · intro h
    unfold matchContractAt at h
    split at h
    · next rest =>
      split at h
      · next hc =>
        injection h with h
        subst h
        refine ⟨⟨rest.take 40, rfl, hc.1, ?_⟩, rest.drop 40, ?_⟩
        · intro c hc2
          exact List.all_eq_true.1 hc.2 c hc2
        · simp
      · simp at h
    · simp at h
  · rintro ⟨⟨hex, rfl, hl, hh⟩, post, rfl⟩
    have ht : (hex ++ post).take 40 = hex := by
      rw [List.take_append_of_le_length (by omega), List.take_of_length_le (by omega)]
    show matchContractAt (48 :: 120 :: (hex ++ post)) = _
    simp only [matchContractAt, ht]
    rw [if_pos ⟨hl, List.all_eq_true.2 hh⟩]
    rfl

theorem IsContract.length_eq {a : JSString} (h : IsContract a) : a.length = 42 := by
  obtain ⟨hex, rfl, hl, -⟩ := h
  simp [js, hl]

theorem contractAt_iff (t : JSString) (p : Nat) (a : JSString) :
    ContractAt t p a ↔ matchContractAt (t.drop p) = some a := by
  rw [matchContractAt_some]
  constructor
  · rintro ⟨hc, pre, post, rfl, rfl⟩
    exact ⟨hc, post, by simp⟩
  · rintro ⟨hc, post, hd⟩
    refine ⟨hc, t.take p, post, ?_, ?_⟩
    · rw [List.append_assoc, ← hd, List.take_append_drop]
    · have hlen : (t.drop p).length = 42 + post.length := by
        rw [hd, List.length_append, hc.length_eq]
      rw [List.length_drop] at hlen
      rw [List.length_take]
      omega

theorem contractAt_eq_take (t : JSString) (p : Nat) (a : JSString) (ha : ContractAt t p a) :
    (t.drop p).take 42 = a := by
  have hl := ha.1.length_eq
  rw [contractAt_iff, matchContractAt_some] at ha
  obtain ⟨-, post, hd⟩ := ha
  rw [hd, List.take_append_of_le_length (by omega), List.take_of_length_le (by omega)]

/-- The matches of the global scan: the positions `ps` are those where the scan
matches, each at least 42 after the one before, and every position that holds a
contract-shaped substring lies in the window of a match. -/
theorem scanContracts_spec (t : JSString) (skip : Nat) :
    ∃ ps : List Nat, scanContracts skip t = ps.map (fun p => (t.drop p).take 42)
      ∧ (∀ p ∈ ps, skip ≤ p ∧ ContractAt t p ((t.drop p).take 42))
      ∧ ps.Pairwise (fun p q => p + 42 ≤ q)
      ∧ (∀ q a, skip ≤ q → ContractAt t q a → ∃ p ∈ ps, p ≤ q ∧ q < p + 42) := by
  induction t generalizing skip with
  | nil =>
    refine ⟨[], by cases skip <;> simp [scanContracts], by simp, by simp, ?_⟩
    intro q a _ ha
    rw [contractAt_iff] at ha
    simp [matchContractAt] at ha
  | cons c rest ih =>
    have shift : ∀ q a, ContractAt (c :: rest) (q + 1) a ↔ ContractAt rest q a := by
      intro q a
      rw [contractAt_iff, contractAt_iff]; rfl
    cases skip with
    | succ k =>
      obtain ⟨ps, h1, h2, h3, h4⟩ := ih k
      refine ⟨ps.map (· + 1), ?_, ?_, ?_, ?_⟩
      · simp only [scanContracts, h1, List.map_map]
        rfl
      · intro p hp
        obtain ⟨p', hp', rfl⟩ := List.mem_map.1 hp
        exact ⟨by have := (h2 p' hp').1; omega, (shift _ _).2 (h2 p' hp').2⟩
      · rw [List.pairwise_map]
        exact h3.imp (by intro a b h; omega)
      · intro q a hq ha
        obtain ⟨q', rfl⟩ : ∃ q', q = q' + 1 := ⟨q - 1, by omega⟩
        obtain ⟨p, hp, hle, hlt⟩ := h4 q' a (by omega) ((shift _ _).1 ha)
        exact ⟨p + 1, List.mem_map.2 ⟨p, hp, rfl⟩, by omega, by omega⟩
    | zero =>
      cases hm : matchContractAt (c :: rest) with
      | none =>
        obtain ⟨ps, h1, h2, h3, h4⟩ := ih 0
        refine ⟨ps.map (· + 1), ?_, ?_, ?_, ?_⟩
        · simp only [scanContracts, hm, h1, List.map_map]
          rfl
        · intro p hp
          obtain ⟨p', hp', rfl⟩ := List.mem_map.1 hp
          exact ⟨by omega, (shift _ _).2 (h2 p' hp').2⟩
        · rw [List.pairwise_map]
          exact h3.imp (by intro a b h; omega)
        · intro q a _ ha
          cases q with
          | zero =>
            rw [contractAt_iff] at ha
            simp only [List.drop_zero] at ha
            rw [hm] at ha
            exact absurd ha (by simp)
          | succ q' =>
            obtain ⟨p, hp, hle, hlt⟩ := h4 q' a (by omega) ((shift _ _).1 ha)
            exact ⟨p + 1, List.mem_map.2 ⟨p, hp, rfl⟩, by omega, by omega⟩
      | some m =>
        obtain ⟨ps, h1, h2, h3, h4⟩ := ih 41
        have hat : ContractAt (c :: rest) 0 m := (contractAt_iff _ _ _).2 hm
        have hm2 : ((c :: rest).drop 0).take 42 = m := contractAt_eq_take _ _ _ hat
        refine ⟨0 :: ps.map (· + 1), ?_, ?_, ?_, ?_⟩
        · simp only [scanContracts, hm, h1, List.map_cons, List.map_map, hm2]
          rfl
        · intro p hp
          rcases List.mem_cons.1 hp with rfl | hp
          · exact ⟨le_refl _, by rw [hm2]; exact hat⟩
          · obtain ⟨p', hp', rfl⟩ := List.mem_map.1 hp
            exact ⟨by omega, (shift _ _).2 (h2 p' hp').2⟩
        · refine List.pairwise_cons.2 ⟨?_, ?_⟩
          · intro p hp
            obtain ⟨p', hp', rfl⟩ := List.mem_map.1 hp
            have := (h2 p' hp').1
            omega
          · rw [List.pairwise_map]
            exact h3.imp (by intro a b h; omega)
        · intro q a _ ha
          by_cases hq : q < 42
          · exact ⟨0, List.mem_cons_self _ _, by omega, by omega⟩
          · obtain ⟨q', rfl⟩ : ∃ q', q = q' + 1 := ⟨q - 1, by omega⟩
            obtain ⟨p, hp, hle, hlt⟩ := h4 q' a (by omega) ((shift _ _).1 ha)
            exact ⟨p + 1, List.mem_cons_of_mem _ (List.mem_map.2 ⟨p, hp, rfl⟩),
              by omega, by omega⟩


/-- What `[...new Set(fullText.match(contractRegex) || [])]` holds for a text `t`. -/
theorem contracts_spec (t : JSString) :
    (setFromArray (scanContracts 0 t)).Nodup
      ∧ ∃ ps : List Nat, ps.Pairwise (fun p q => p + 42 ≤ q)
        ∧ (∀ p ∈ ps, ContractAt t p ((t.drop p).take 42))
        ∧ (∀ q a, ContractAt t q a → ∃ p ∈ ps, p ≤ q ∧ q < p + 42)
        ∧ (∀ a, a ∈ setFromArray (scanContracts 0 t) ↔ ∃ p ∈ ps, ContractAt t p a)
        ∧ (setFromArray (scanContracts 0 t)).Pairwise
            (fun a b => ∃ p ∈ ps, ContractAt t p a ∧ ∀ q ∈ ps, ContractAt t q b → p < q) := by
  obtain ⟨ps, h1, h2, h3, h4⟩ := scanContracts_spec t 0
  have hspec := setFromArray_spec (scanContracts 0 t)
  refine ⟨hspec.1, ps, h3, fun p hp => (h2 p hp).2, fun q a ha => h4 q a (Nat.zero_le _) ha,
    ?_, ?_⟩
  · intro a
    rw [hspec.2.1, h1, List.mem_map]
    constructor
    · rintro ⟨p, hp, rfl⟩
      exact ⟨p, hp, (h2 p hp).2⟩
    · rintro ⟨p, hp, ha⟩
      exact ⟨p, hp, contractAt_eq_take t p a ha⟩
  · rw [h1]
    refine (setFromArray_map_order ps _ (h3.imp (by intro a b h; omega))).imp ?_
    rintro a b ⟨p, hp, rfl, hq⟩
    refine ⟨p, hp, (h2 p hp).2, fun q hq2 hb => hq q hq2 (contractAt_eq_take t q b hb)⟩

theorem contractAt_infix (t : JSString) (p : Nat) (a : JSString) (h : ContractAt t p a) :
    a <:+: t := by
  obtain ⟨-, pre, post, rfl, -⟩ := h
  exact ⟨pre, post, rfl⟩

theorem mem_contracts_of_clear (t : JSString) (q : Nat) (a : JSString) (ha : ContractAt t q a)
    (hclear : ∀ q' b, ContractAt t q' b → q' < q → q' + 42 ≤ q) :
    a ∈ setFromArray (scanContracts 0 t) := by
  obtain ⟨-, ps, -, h2, h3, h4, -⟩ := contracts_spec t
  obtain ⟨p, hp, hle, hlt⟩ := h3 q a ha
  rw [h4]
  rcases Nat.lt_or_ge p q with hpq | hpq
  · have := hclear p _ (h2 p hp) hpq
    omega
  · have : p = q := by omega
    exact ⟨q, this ▸ hp, ha⟩

/-- C3 (amended): contract extraction. For every raw message whose `text` is a
non-empty string `t`, the scan of line 128 succeeds, every item the function
returns has as `contracts` the duplicate-free list of what the scan found, and
the function returns one whenever its title expression can be evaluated. That
list has no duplicate, holds only substrings of `t` of the shape `0x` + 40
hexadecimal digits (42 code units), and is the list, in order of first match, of
the matches of a left-to-right scan: the match positions `ps` are at least 42
apart, each holds a contract-shaped substring, and every contract-shaped
substring of `t` starts inside the window of a match. In particular a
contract-shaped substring that no earlier-starting one overlaps is in the list. -/
theorem contract_extraction (h : Host) (message : JSObject) (t : JSString) (ht : t ≠ [])
    (htext : getProp message (js "text") = .str t) :
    ∃ found, callMatchContracts (fullTextOf message) = .ok found
      ∧ (∀ item, transformNewsToFormat h message = .ok item →
          item.contracts = setFromArray found)
      ∧ (TitleBuilds message → ∃ item, transformNewsToFormat h message = .ok item
          ∧ item.contracts = setFromArray found)
      ∧ (setFromArray found).Nodup
      ∧ (∀ a ∈ setFromArray found, IsContract a ∧ a.length = 42 ∧ a <:+: t)
      ∧ (∃ ps : List Nat, ps.Pairwise (fun p q => p + 42 ≤ q)
          ∧ (∀ p ∈ ps, ContractAt t p ((t.drop p).take 42))
          ∧ (∀ q a, ContractAt t q a → ∃ p ∈ ps, p ≤ q ∧ q < p + 42)
          ∧ (∀ a, a ∈ setFromArray found ↔ ∃ p ∈ ps, ContractAt t p a)
          ∧ (setFromArray found).Pairwise
              (fun a b => ∃ p ∈ ps, ContractAt t p a ∧ ∀ q ∈ ps, ContractAt t q b → p < q))
      ∧ (∀ q a, ContractAt t q a →
          (∀ q' b, ContractAt t q' b → q' < q → q' + 42 ≤ q) → a ∈ setFromArray found) := by
  have hft := fullTextOf_text message t ht htext
  obtain ⟨hnd, ps, h1, h2, h3, h4, h5⟩ := contracts_spec t
  refine ⟨scanContracts 0 t, by rw [hft]; rfl,
    fun item hitem => (transform_fields h message t item hft hitem).2.1, ?_, hnd, ?_,
    ⟨ps, h1, h2, h3, h4, h5⟩, fun q a ha hclear => mem_contracts_of_clear t q a ha hclear⟩
  · intro hb
    obtain ⟨ttl, httl⟩ := titleOf_ok message hb
    exact ⟨_, transform_ok h message t ttl hft httl, rfl⟩
  · intro a ha
    obtain ⟨p, -, hat⟩ := (h4 a).1 ha
    exact ⟨hat.1, hat.1.length_eq, contractAt_infix t p a hat⟩

/-- C3 (amended) at `overlappingText`: the address at position 0 is extracted. -/
theorem contract_extraction_witness :
    ∃ item, transformNewsToFormat plainHost overlappingMessage = .ok item
      ∧ repeatedAddress 48 ∈ item.contracts := by
  obtain ⟨found, -, -, h3, -, -, -, h7⟩ := contract_extraction plainHost overlappingMessage
    overlappingText (by decide) rfl
  obtain ⟨item, hi, hc⟩ := h3 (Or.inr (fun hu => absurd hu (by decide)))
  refine ⟨item, hi, ?_⟩
  rw [hc]
  exact h7 0 (repeatedAddress 48) ((contractAt_iff _ _ _).2 (by decide))
    (fun q' b _ hq => absurd hq (Nat.not_lt_zero _))

/-- C3, as stated, fails: position 41 of `overlappingText` holds a
contract-shaped substring that is not among the contracts. -/
theorem contract_extraction_counterexample :
    ∃ item, transformNewsToFormat plainHost overlappingMessage = .ok item
      ∧ ContractAt overlappingText 41 (repeatedAddress 49)
      ∧ repeatedAddress 49 ∉ item.contracts := by
  refine ⟨_, transform_ok plainHost overlappingMessage overlappingText .null rfl rfl,
    (contractAt_iff _ _ _).2 (by decide), ?_⟩
  show repeatedAddress 49 ∉ setFromArray (scanContracts 0 overlappingText)
  decide


/-! ## The ticker scan -/

theorem backtrackToken_some (rest : JSString) (k : Nat) (sym : JSString)
    (h : backtrackToken rest k = some sym) :
    ∃ j, 2 ≤ j + 1 ∧ j + 1 ≤ k ∧ sym = rest.take (j + 1)
      ∧ wordBoundary rest[j]? rest[j + 1]? = true := by
  induction k with
  | zero => simp [backtrackToken] at h
  | succ k ih =>
    rw [backtrackToken] at h
    split at h
    · simp at h
    · next h2 =>
      split at h
      · next hw =>
        injection h with h
        exact ⟨k, by omega, le_refl _, h.symm, hw⟩
      · obtain ⟨j, h1, h3, h4, h5⟩ := ih h
        exact ⟨j, h1, by omega, h4, h5⟩

theorem backtrackToken_hit (rest : JSString) (k : Nat) (hk : 2 ≤ k + 1)
    (hw : wordBoundary rest[k]? rest[k + 1]? = true) :
    backtrackToken rest (k + 1) = some (rest.take (k + 1)) := by
  rw [backtrackToken]
  rw [if_neg (by omega), if_pos hw]

theorem isWordChar_of_upper (c : Nat) (h : isUpperAZ c = true) : isWordChar c = true := by
  simp only [isUpperAZ, Bool.and_eq_true, decide_eq_true_eq] at h
  simp [isWordChar, h.1, h.2]

theorem matchTokenAt_some (s sym : JSString) :
    matchTokenAt s = some sym ↔
      IsTicker sym ∧ ∃ post, s = 36 :: sym ++ post
        ∧ ∀ c, post.head? = some c → isWordChar c = false := by
  constructor
  · intro h
    unfold matchTokenAt at h
    split at h
    · next rest =>
      obtain ⟨j, h1, h2, h3, h4⟩ := backtrackToken_some rest _ sym h
      have hn10 : ((rest.takeWhile isUpperAZ).take 10).length ≤ 10 := by
        rw [List.length_take]; omega
      have hnrun : ((rest.takeWhile isUpperAZ).take 10).length
          ≤ (rest.takeWhile isUpperAZ).length := by
        rw [List.length_take]; omega
      have hrun : rest = rest.takeWhile isUpperAZ ++ rest.dropWhile isUpperAZ :=
        (List.takeWhile_append_dropWhile _ _).symm
      have hlen : (rest.takeWhile isUpperAZ).length ≤ rest.length := by
        have := congrArg List.length hrun
        rw [List.length_append] at this
        omega
      have htake : rest.take (j + 1) = (rest.takeWhile isUpperAZ).take (j + 1) := by
        conv_lhs => rw [hrun]
        rw [List.take_append_of_le_length (by omega)]
      have hsl : sym.length = j + 1 := by
        rw [h3, List.length_take]; omega
      have hup : ∀ c ∈ sym, isUpperAZ c = true := by
        intro c hc
        rw [h3, htake] at hc
        exact List.mem_takeWhile_imp (List.mem_of_mem_take hc)
      refine ⟨⟨by omega, by omega, hup⟩, rest.drop (j + 1), ?_, ?_⟩
      · rw [h3, List.cons_append, List.take_append_drop]
      · intro c hc
        have hjlt : j < rest.length := by omega
        have hj : rest[j]? = some rest[j] := List.getElem?_eq_getElem hjlt
        have hmem : rest[j] ∈ sym := by
          have : rest[j] ∈ rest.take (j + 1) :=
            List.mem_iff_getElem.2 ⟨j, by rw [List.length_take]; omega, by simp⟩
          exact h3 ▸ this
        have hw1 : isWordAt rest[j]? = true := by
          rw [hj]; exact isWordChar_of_upper _ (hup _ hmem)
        have hnext : rest[j + 1]? = some c := by
          rw [List.head?_drop] at hc
          exact hc
        rw [wordBoundary, hw1, hnext] at h4
        simpa [isWordAt] using h4
    · simp at h
  · rintro ⟨⟨h2, h10, hup⟩, post, rfl, hpost⟩
    have htw : (sym ++ post).takeWhile isUpperAZ = sym := by
      rw [List.takeWhile_append_of_pos hup]
      cases post with
      | nil => simp
      | cons c post =>
        have hc := hpost c rfl
        have : isUpperAZ c = false := by
          cases hu : isUpperAZ c with
          | false => rfl
          | true => rw [isWordChar_of_upper c hu] at hc; exact absurd hc (by simp)
        simp [List.takeWhile_cons, this]
    obtain ⟨k, hk⟩ : ∃ k, sym.length = k + 1 := ⟨sym.length - 1, by omega⟩
    have hn : ((List.takeWhile isUpperAZ (sym ++ post)).take 10).length = k + 1 := by
      rw [htw, List.length_take]; omega
    show backtrackToken (sym ++ post)
      ((List.takeWhile isUpperAZ (sym ++ post)).take 10).length = some sym
    rw [hn, backtrackToken_hit (sym ++ post) k (by omega)]
    · rw [← hk, List.take_left]
    · have hklt : k < sym.length := by omega
      have hj : (sym ++ post)[k]? = some sym[k] := by
        rw [List.getElem?_append_left (by omega)]
        exact List.getElem?_eq_getElem (by omega)
      have hw1 : isWordAt (sym ++ post)[k]? = true := by
        rw [hj]
        exact isWordChar_of_upper _ (hup _ (List.getElem_mem _))
      have hw2 : isWordAt (sym ++ post)[k + 1]? = false := by
        rw [List.getElem?_append_right (by omega)]
        have : k + 1 - sym.length = 0 := by omega
        rw [this]
        cases post with
        | nil => rfl
        | cons c post =>
          have := hpost c rfl
          simpa [isWordAt] using this
      rw [wordBoundary, hw1, hw2]
      rfl


theorem tickerAt_iff (t : JSString) (p : Nat) (sym : JSString) :
    TickerAt t p sym ↔ matchTokenAt (t.drop p) = some sym := by
  rw [matchTokenAt_some]
  constructor
  · rintro ⟨hc, pre, post, rfl, rfl, hp⟩
    exact ⟨hc, post, by simp, hp⟩
  · rintro ⟨hc, post, hd, hp⟩
    refine ⟨hc, t.take p, post, ?_, ?_, hp⟩
    · rw [List.append_assoc, ← hd, List.take_append_drop]
    · have hlen : (t.drop p).length = 1 + sym.length + post.length := by
        rw [hd]; simp; omega
      rw [List.length_drop] at hlen
      rw [List.length_take]
      omega

theorem matchTokenAt_inside (sym post : JSString) (hup : ∀ c ∈ sym, isUpperAZ c = true)
    (q : Nat) (hq : q < sym.length) : matchTokenAt ((sym ++ post).drop q) = none := by
  have hd : (sym ++ post).drop q = sym[q] :: ((sym.drop (q + 1)) ++ post) := by
    rw [List.drop_append_of_le_length (by omega), List.drop_eq_getElem_cons hq]
    rfl
  rw [hd]
  have hu := hup sym[q] (List.getElem_mem _)
  simp only [isUpperAZ, Bool.and_eq_true, decide_eq_true_eq] at hu
  unfold matchTokenAt
  split
  · next rest heq =>
    injection heq with h1 _
    omega
  · rfl

/-- The matches of the global ticker scan: the scan matches exactly at the
positions, from `skip` on, where an attempt succeeds. -/
theorem scanTokens_spec (t : JSString) (skip : Nat) :
    ∃ ps : List Nat, scanTokens skip t = ps.map (fun p => (matchTokenAt (t.drop p)).getD [])
      ∧ (∀ p ∈ ps, skip ≤ p ∧ (matchTokenAt (t.drop p)).isSome = true)
      ∧ ps.Pairwise (fun p q => p < q)
      ∧ (∀ q, skip ≤ q → (matchTokenAt (t.drop q)).isSome = true → q ∈ ps) := by
  induction t generalizing skip with
  | nil =>
    refine ⟨[], by cases skip <;> simp [scanTokens], by simp, by simp, ?_⟩
    intro q _ hq
    simp [matchTokenAt] at hq
  | cons c rest ih =>
    cases skip with
    | succ k =>
      obtain ⟨ps, h1, h2, h3, h4⟩ := ih k
      refine ⟨ps.map (· + 1), ?_, ?_, ?_, ?_⟩
      · simp only [scanTokens, h1, List.map_map]
        rfl
      · intro p hp
        obtain ⟨p', hp', rfl⟩ := List.mem_map.1 hp
        exact ⟨by have := (h2 p' hp').1; omega, (h2 p' hp').2⟩
      · rw [List.pairwise_map]
        exact h3.imp (by intro a b h; omega)
      · intro q hq hs
        obtain ⟨q', rfl⟩ : ∃ q', q = q' + 1 := ⟨q - 1, by omega⟩
        exact List.mem_map.2 ⟨q', h4 q' (by omega) hs, rfl⟩
    | zero =>
      cases hm : matchTokenAt (c :: rest) with
      | none =>
        obtain ⟨ps, h1, h2, h3, h4⟩ := ih 0
        refine ⟨ps.map (· + 1), ?_, ?_, ?_, ?_⟩
        · simp only [scanTokens, hm, h1, List.map_map]
          rfl
        · intro p hp
          obtain ⟨p', hp', rfl⟩ := List.mem_map.1 hp
          exact ⟨by omega, (h2 p' hp').2⟩
        · rw [List.pairwise_map]
          exact h3.imp (by intro a b h; omega)
        · intro q _ hs
          cases q with
          | zero =>
            simp only [List.drop_zero] at hs
            rw [hm] at hs
            exact absurd hs (by simp)
          | succ q' => exact List.mem_map.2 ⟨q', h4 q' (by omega) hs, rfl⟩
      | some m =>
        obtain ⟨ps, h1, h2, h3, h4⟩ := ih m.length
        obtain ⟨⟨-, -, hup⟩, post, hcr, -⟩ := (matchTokenAt_some _ _).1 hm
        have hrest : rest = m ++ post := by
          injection hcr
        refine ⟨0 :: ps.map (· + 1), ?_, ?_, ?_, ?_⟩
        · simp only [scanTokens, hm, h1, List.map_cons, List.map_map, List.drop_zero]
          rfl
        · intro p hp
          rcases List.mem_cons.1 hp with rfl | hp
          · exact ⟨le_refl _, by simp [hm]⟩
          · obtain ⟨p', hp', rfl⟩ := List.mem_map.1 hp
            exact ⟨by omega, (h2 p' hp').2⟩
        · refine List.pairwise_cons.2 ⟨?_, ?_⟩
          · intro p hp
            obtain ⟨p', hp', rfl⟩ := List.mem_map.1 hp
            omega
          · rw [List.pairwise_map]
            exact h3.imp (by intro a b h; omega)
        · intro q _ hs
          cases q with
          | zero => exact List.mem_cons_self _ _
          | succ q' =>
            by_cases hq : q' < m.length
            · have : matchTokenAt ((c :: rest).drop (q' + 1)) = none := by
                rw [List.drop_succ_cons, hrest]
                exact matchTokenAt_inside m post hup q' hq
              rw [this] at hs
              exact absurd hs (by simp)
            · exact List.mem_cons_of_mem _ (List.mem_map.2 ⟨q', h4 q' (by omega) hs, rfl⟩)

/-- What `[...new Set(tokens)]` holds for a text `t`. -/
theorem tokens_spec (t : JSString) :
    (setFromArray (scanTokens 0 t)).Nodup
      ∧ (∀ sym, sym ∈ setFromArray (scanTokens 0 t) ↔ ∃ p, TickerAt t p sym)
      ∧ (setFromArray (scanTokens 0 t)).Pairwise
          (fun a b => ∃ p, TickerAt t p a ∧ ∀ q, TickerAt t q b → p < q) := by
  obtain ⟨ps, h1, h2, h3, h4⟩ := scanTokens_spec t 0
  have hspec := setFromArray_spec (scanTokens 0 t)
  have hval : ∀ p ∈ ps, TickerAt t p ((matchTokenAt (t.drop p)).getD []) := by
    intro p hp
    rw [tickerAt_iff]
    have := (h2 p hp).2
    cases hm : matchTokenAt (t.drop p) with
    | none => rw [hm] at this; exact absurd this (by simp)
    | some m => rfl
  have hmem : ∀ q b, TickerAt t q b → q ∈ ps ∧ (matchTokenAt (t.drop q)).getD [] = b := by
    intro q b hb
    rw [tickerAt_iff] at hb
    exact ⟨h4 q (Nat.zero_le _) (by simp [hb]), by simp [hb]⟩
  refine ⟨hspec.1, ?_, ?_⟩
  · intro sym
    rw [hspec.2.1, h1, List.mem_map]
    constructor
    · rintro ⟨p, hp, rfl⟩
      exact ⟨p, hval p hp⟩
    · rintro ⟨p, hp⟩
      exact ⟨p, (hmem p sym hp).1, (hmem p sym hp).2⟩
  · rw [h1]
    refine (setFromArray_map_order ps _ h3).imp ?_
    rintro a b ⟨p, hp, rfl, hq⟩
    exact ⟨p, hval p hp, fun q hb => hq q (hmem q b hb).1 (hmem q b hb).2⟩


theorem tickerAt_at (pre body : JSString) (sym : JSString)
    (h : TickerAt (pre ++ body) pre.length sym) :
    IsTicker sym ∧ ∃ post, body = 36 :: sym ++ post
      ∧ ∀ c, post.head? = some c → isWordChar c = false := by
  rw [tickerAt_iff, List.drop_left] at h
  exact (matchTokenAt_some _ _).1 h

theorem no_ticker_of_not_upper (pre rest : JSString) (c : Nat) (hc : isUpperAZ c = false)
    (sym : JSString) : ¬ TickerAt (pre ++ 36 :: c :: rest) pre.length sym := by
  intro h
  obtain ⟨⟨h2, -, hup⟩, post, hb, -⟩ := tickerAt_at pre _ sym h
  cases sym with
  | nil => simp at h2
  | cons d sym =>
    injection hb with _ hb
    injection hb with hb _
    rw [hb, hup d (List.mem_cons_self _ _)] at hc
    exact absurd hc (by simp)

theorem no_ticker_of_single (pre rest : JSString) (c : Nat)
    (hrest : ∀ d, rest.head? = some d → isUpperAZ d = false)
    (sym : JSString) : ¬ TickerAt (pre ++ 36 :: c :: rest) pre.length sym := by
  intro h
  obtain ⟨⟨h2, -, hup⟩, post, hb, -⟩ := tickerAt_at pre _ sym h
  match sym, h2, hup, hb with
  | [], h2, _, _ => simp at h2
  | [_], h2, _, _ => simp at h2
  | a :: d :: sym, _, hup, hb =>
    injection hb with _ hb
    injection hb with _ hb
    have hd := hrest d (by rw [hb]; rfl)
    rw [hup d (by simp)] at hd
    exact absurd hd (by simp)

theorem no_ticker_of_long_run (pre run rest : JSString) (hlen : 10 < run.length)
    (hrun : ∀ c ∈ run, isUpperAZ c = true)
    (sym : JSString) : ¬ TickerAt (pre ++ 36 :: (run ++ rest)) pre.length sym := by
  intro h
  obtain ⟨⟨-, h10, -⟩, post, hb, hpost⟩ := tickerAt_at pre _ sym h
  injection hb with _ hb
  replace hb : run ++ rest = sym ++ post := hb
  have hlt : sym.length < run.length := by omega
  have h1 : (run ++ rest)[sym.length]? = some run[sym.length] := by
    rw [List.getElem?_append_left hlt]
    exact List.getElem?_eq_getElem hlt
  have h2 : (sym ++ post)[sym.length]? = post.head? := by
    rw [List.getElem?_append_right (le_refl _), Nat.sub_self, List.head?_eq_getElem?]
  rw [hb, h2] at h1
  have := hpost _ h1
  rw [isWordChar_of_upper _ (hrun _ (List.getElem_mem _))] at this
  exact absurd this (by simp)

/-- C4: ticker extraction. For every raw message whose `text` is a non-empty
string `t`, the scan of lines 131-133 succeeds, every item the function returns
has as `tokens` the duplicate-free list of what the scan found, and the function
returns one whenever its title expression can be evaluated. That list has no
duplicate and holds exactly the symbols that occur in `t` as a ticker (a dollar
sign, 2 to 10 uppercase ASCII letters, then the end of the text or a code unit
that is not an ASCII letter, digit or underscore), in order of first occurrence.
A dollar sign followed by a code unit that is not an uppercase letter (a
lower-case letter, say), by a single uppercase letter, or by more than ten
uppercase letters yields no ticker, and `Buy $BTC and $eth now` yields
`["BTC"]`. -/
theorem ticker_extraction (h : Host) (message : JSObject) (t : JSString) (ht : t ≠ [])
    (htext : getProp message (js "text") = .str t) :
    ∃ found, callMatchTokens (fullTextOf message) = .ok found
      ∧ (∀ item, transformNewsToFormat h message = .ok item → item.tokens = setFromArray found)
      ∧ (TitleBuilds message → ∃ item, transformNewsToFormat h message = .ok item
          ∧ item.tokens = setFromArray found)
      ∧ (setFromArray found).Nodup
      ∧ (∀ sym, sym ∈ setFromArray found ↔ ∃ p, TickerAt t p sym)
      ∧ (setFromArray found).Pairwise
          (fun a b => ∃ p, TickerAt t p a ∧ ∀ q, TickerAt t q b → p < q)
      ∧ (∀ pre c rest, t = pre ++ 36 :: c :: rest → isUpperAZ c = false →
          ∀ sym, ¬ TickerAt t pre.length sym)
      ∧ (∀ pre c rest, t = pre ++ 36 :: c :: rest →
          (∀ d, rest.head? = some d → isUpperAZ d = false) →
          ∀ sym, ¬ TickerAt t pre.length sym)
      ∧ (∀ pre run rest, t = pre ++ 36 :: (run ++ rest) → 10 < run.length →
          (∀ c ∈ run, isUpperAZ c = true) → ∀ sym, ¬ TickerAt t pre.length sym)
      ∧ (t = tickerText → setFromArray found = [js "BTC"]) := by
  have hft := fullTextOf_text message t ht htext
  obtain ⟨h1, h2, h3⟩ := tokens_spec t
  refine ⟨scanTokens 0 t, by rw [hft]; rfl,
    fun item hitem => (transform_fields h message t item hft hitem).2.2.1, ?_, h1, h2, h3,
    ?_, ?_, ?_, ?_⟩
  · intro hb
    obtain ⟨ttl, httl⟩ := titleOf_ok message hb
    exact ⟨_, transform_ok h message t ttl hft httl, rfl⟩
  · rintro pre c rest rfl hc sym
    exact no_ticker_of_not_upper pre rest c hc sym
  · rintro pre c rest rfl hrest sym
    exact no_ticker_of_single pre rest c hrest sym
  · rintro pre run rest rfl hlen hrun sym
    exact no_ticker_of_long_run pre run rest hlen hrun sym
  · rintro rfl
    decide

/-- C4 at the ticker example: the item is returned and its tokens are `["BTC"]`. -/
theorem ticker_extraction_witness :
    ∃ item, transformNewsToFormat plainHost [(js "text", .str tickerText)] = .ok item
      ∧ item.tokens = [js "BTC"] := by
  obtain ⟨found, -, -, h3, -, -, -, -, -, -, h10⟩ := ticker_extraction plainHost
    [(js "text", .str tickerText)] tickerText (by decide) rfl
  obtain ⟨item, hi, hc⟩ := h3 (Or.inr (fun hu => absurd hu (by decide)))
  exact ⟨item, hi, hc.trans (h10 rfl)⟩

/-! ## Where the extraction reads -/

theorem eq_singleton_of_all_eq (l : List JSString) (a : JSString) (hnd : l.Nodup)
    (hall : ∀ x ∈ l, x = a) (hmem : a ∈ l) : l = [a] := by
  match l, hnd, hall, hmem with
  | [], _, _, hmem => simp at hmem
  | [x], _, hall, _ => rw [hall x (by simp)]
  | x :: y :: l, hnd, hall, _ =>
    have hx := hall x (by simp)
    have hy := hall y (by simp)
    rw [hx, hy] at hnd
    simp at hnd

/-- C10 (amended): where the extraction reads. For every raw message for which
the function returns, `contracts` and `tokens` are extracted from the string
`text || title || ''`, never from the raw `body` field, while the item's body is
`text || body || ''`. When `text` is a non-empty string the two coincide, and
then a body all of whose contract-shaped substrings are one address `a` yields
`contracts = [a]`. -/
theorem extraction_source (h : Host) (message : JSObject) (s : JSString)
    (hft : fullTextOf message = .str s) (hb : TitleBuilds message) :
    ∃ item, transformNewsToFormat h message = .ok item
      ∧ item.contracts = setFromArray (scanContracts 0 s)
      ∧ item.tokens = setFromArray (scanTokens 0 s)
      ∧ item.body
          = jsOr (jsOr (getProp message (js "text")) (getProp message (js "body"))) (.str [])
      ∧ (∀ t, t ≠ [] → getProp message (js "text") = .str t →
          s = t ∧ item.body = .str t
          ∧ ∀ a, (∃ p, ContractAt t p a) → (∀ q b, ContractAt t q b → b = a) →
              item.contracts = [a]) := by
  obtain ⟨ttl, httl⟩ := titleOf_ok message hb
  refine ⟨_, transform_ok h message s ttl hft httl, rfl, rfl, rfl, ?_⟩
  intro t ht htext
  have hst : s = t := by
    have := fullTextOf_text message t ht htext
    rw [hft] at this
    injection this
  subst hst
  refine ⟨rfl, ?_, ?_⟩
  · show jsOr (jsOr (getProp message (js "text")) (getProp message (js "body"))) (.str [])
      = .str s
    cases s with
    | nil => exact absurd rfl ht
    | cons c s =>
      simp only [jsOr, htext]
      simp [truthy]
  · rintro a ⟨p, hp⟩ hone
    show setFromArray (scanContracts 0 s) = [a]
    obtain ⟨hnd, ps, -, h2, h3, h4, -⟩ := contracts_spec s
    apply eq_singleton_of_all_eq _ a hnd
    · intro x hx
      obtain ⟨q, -, hq⟩ := (h4 x).1 hx
      exact hone q x hq
    · obtain ⟨q, hq, -, -⟩ := h3 p a hp
      rw [h4]
      exact ⟨q, hq, by rw [← hone q _ (h2 q hq)]; exact h2 q hq⟩

/-- C10 (amended) at a message whose `text` is one address. -/
theorem extraction_source_witness :
    ∃ item, transformNewsToFormat plainHost [(js "text", .str (repeatedAddress 48))] = .ok item
      ∧ item.body = .str (repeatedAddress 48) ∧ item.contracts = [repeatedAddress 48] := by
  obtain ⟨item, h1, h2, -, -, -⟩ := extraction_source plainHost
    [(js "text", .str (repeatedAddress 48))] (repeatedAddress 48) rfl
    (Or.inr (fun hu => absurd hu (by decide)))
  refine ⟨item, h1, ?_, ?_⟩
  · have := transform_ok plainHost [(js "text", .str (repeatedAddress 48))]
      (repeatedAddress 48) .null rfl rfl
    rw [this] at h1
    injection h1 with h1
    rw [← h1]
    rfl
  · rw [h2]; decide

/-- C10, as stated, fails: an address supplied through `body` only becomes the
item's body and is not extracted. -/
theorem extraction_source_counterexample :
    hasProp bodyOnlyMessage (js "text") = false
      ∧ ContractAt (repeatedAddress 48) 0 (repeatedAddress 48)
      ∧ ∃ item, transformNewsToFormat plainHost bodyOnlyMessage = .ok item
          ∧ item.body = .str (repeatedAddress 48) ∧ item.contracts = [] :=
  ⟨rfl, (contractAt_iff _ _ _).2 (by decide),
    _, transform_ok plainHost bodyOnlyMessage [] .null rfl rfl, rfl, rfl⟩

end AlfaNews
